import Mathlib

/-!
# Escrow evaluator of the chain library

A shallow embedding of `libraries/chain/escrow_evaluator.cpp`: the four evaluators
`escrow_transfer_evaluator` (Create), `escrow_approve_evaluator` (Approve / Reject),
`escrow_dispute_evaluator` (Dispute) and `escrow_release_evaluator` (Release), each as a
function `do_apply` from a database and an operation to the outcome of the run.

An `FC_ASSERT` that fails, or a lookup that finds nothing, throws.  The outcome of a run is
therefore an `Except database database`: `.ok db` is the database after a run that
completed, `.error db` is the database as it stood when the exception was thrown, so that
mutations made before a throw stay visible in the model.

What becomes of the database after a throw is the business of the layer that calls the
evaluators; `database.apply_with_undo` models it, and `reachable_by` the runs of operations
that complete.

The fields `from` and `to` of the operations and of the record are written `from_` and `to_`.
The database, the account and escrow objects and the asset type are declared outside
`escrow_evaluator.cpp`; they are modelled from the specification and marked as such.
-/

set_option autoImplicit false

namespace steemit.chain

/-! ## Data model -/

/-- Account names are compared for equality only. -/
abbrev account_name_type := String

/-- Points in time (seconds); the evaluators only compare them. -/
abbrev time_point_sec := Nat

/-- Modelled from the spec: the asset header is not among the sources; the spec knows two
currencies, named in the evaluator by `STEEM_SYMBOL_NAME` and `SBD_SYMBOL_NAME`. -/
inductive asset_symbol_type where
  | STEEM_SYMBOL_NAME
  | SBD_SYMBOL_NAME
deriving DecidableEq, Repr

open asset_symbol_type

/-- Modelled from the spec: an asset is a signed amount of one currency.  The amount is an
unbounded integer, the width of the share type is not part of the sources. -/
structure asset where
  amount : Int
  symbol : asset_symbol_type
deriving DecidableEq, Repr

/-- Modelled from the spec: `a += b`, defined between assets of one currency; on two
currencies it throws (`none`). -/
def asset.add (a b : asset) : Option asset :=
  if a.symbol = b.symbol then some { a with amount := a.amount + b.amount } else none

/-- Modelled from the spec: `a -= b`, defined between assets of one currency. -/
def asset.sub (a b : asset) : Option asset :=
  if a.symbol = b.symbol then some { a with amount := a.amount - b.amount } else none

/-- Modelled from the spec: `a >= b`, defined between assets of one currency. -/
def asset.ge (a b : asset) : Option Bool :=
  if a.symbol = b.symbol then some (decide (b.amount ≤ a.amount)) else none

/-- Modelled from the spec: unary minus, the same currency with the amount negated. -/
def asset.neg (a : asset) : asset :=
  { a with amount := -a.amount }

/-- The amount `a` holds of currency `s`: its amount when it is of that currency, else 0. -/
def asset.of_symbol (a : asset) (s : asset_symbol_type) : Int :=
  if a.symbol = s then a.amount else 0

/-- Modelled from the spec: an account of the ledger with its balance in each of the two
currencies (the account object is declared outside the sources). -/
structure account_object where
  name : account_name_type
  balance : Int
  sbd_balance : Int
deriving DecidableEq, Repr

/-- The balance of an account in one currency. -/
def account_object.holding (a : account_object) : asset_symbol_type → Int
  | STEEM_SYMBOL_NAME => a.balance
  | SBD_SYMBOL_NAME => a.sbd_balance

/-- The account with `delta` added to its balance in the currency of `delta`. -/
def account_object.adjust (a : account_object) (delta : asset) : account_object :=
  match delta.symbol with
  | STEEM_SYMBOL_NAME => { a with balance := a.balance + delta.amount }
  | SBD_SYMBOL_NAME => { a with sbd_balance := a.sbd_balance + delta.amount }

/-- Modelled from the spec: the escrow record (section 3 of the spec; the object is declared
outside the sources).  The three flags are false in a record that was just constructed. -/
structure escrow_object where
  escrow_id : Nat
  from_ : account_name_type
  to_ : account_name_type
  agent : account_name_type
  ratification_deadline : time_point_sec
  escrow_expiration : time_point_sec
  sbd_balance : asset
  steem_balance : asset
  pending_fee : asset
  to_approved : Bool := false
  agent_approved : Bool := false
  disputed : Bool := false
deriving DecidableEq, Repr

/-- The operation of `escrow_transfer_evaluator` (Create). -/
structure escrow_transfer_operation where
  from_ : account_name_type
  to_ : account_name_type
  agent : account_name_type
  escrow_id : Nat
  sbd_amount : asset
  steem_amount : asset
  fee : asset
  ratification_deadline : time_point_sec
  escrow_expiration : time_point_sec
deriving DecidableEq, Repr

/-- The operation of `escrow_approve_evaluator` (Approve / Reject). -/
structure escrow_approve_operation where
  from_ : account_name_type
  to_ : account_name_type
  agent : account_name_type
  who : account_name_type
  escrow_id : Nat
  approve : Bool
deriving DecidableEq, Repr

/-- The operation of `escrow_dispute_evaluator` (Dispute). -/
structure escrow_dispute_operation where
  from_ : account_name_type
  to_ : account_name_type
  agent : account_name_type
  who : account_name_type
  escrow_id : Nat
deriving DecidableEq, Repr

/-- The operation of `escrow_release_evaluator` (Release). -/
structure escrow_release_operation where
  from_ : account_name_type
  to_ : account_name_type
  agent : account_name_type
  who : account_name_type
  receiver : account_name_type
  escrow_id : Nat
  sbd_amount : asset
  steem_amount : asset
deriving DecidableEq, Repr

/-- Modelled from the spec: the database the evaluators work on (section 6 of the spec):
the accounts of the ledger, the escrow store and the clock. -/
structure database where
  accounts : List account_object
  escrows : List escrow_object
  head_block_time : time_point_sec
deriving DecidableEq, Repr

/-! ## The collaborators: ledger, clock and escrow store -/

/-- The list with `f` applied to its first element that satisfies `p`. -/
def modify_first {α : Type} (p : α → Bool) (f : α → α) : List α → List α
  | [] => []
  | x :: xs => if p x then f x :: xs else x :: modify_first p f xs

/-- The outcome of a run: `.ok` when it completed, `.error db` when it threw with the
database standing at `db`. -/
abbrev outcome (α : Type) := Except database α

/-- Assertion of the evaluators: continues when the condition holds, throws otherwise. -/
def FC_ASSERT (db : database) (c : Bool) : outcome Unit :=
  if c then .ok () else .error db

/-- Value of an asset operator inside an evaluator: an operator that is not defined on its
operands throws. -/
def database.eval {α : Type} (db : database) : Option α → outcome α
  | some a => .ok a
  | none => .error db

/-- The stored account of that name, if there is one. -/
def database.find_account (db : database) (name : account_name_type) : Option account_object :=
  db.accounts.find? (fun a => a.name == name)

/-- Modelled from the spec: `get_account(id) -> Account | fails NotFound`. -/
def database.get_account (db : database) (name : account_name_type) : outcome account_object :=
  db.eval (db.find_account name)

/-- Modelled from the spec: `get_balance(account, currency) -> amount`. -/
def database.get_balance (db : database) (name : account_name_type) (symbol : asset_symbol_type) :
    outcome asset := do
  let a ← db.get_account name
  pure { amount := a.holding symbol, symbol := symbol }

/-- Modelled from the spec: `adjust_balance(account, signed_amount)`, credits if positive,
debits if negative; the account is the stored one of that name. -/
def database.adjust_balance (db : database) (a : account_object) (delta : asset) : database :=
  { db with accounts := modify_first (fun x => x.name == a.name) (fun x => x.adjust delta) db.accounts }

/-- The record stored under the key `(from, escrow_id)`, if there is one. -/
def database.find_escrow (db : database) (name : account_name_type) (escrow_id : Nat) :
    Option escrow_object :=
  db.escrows.find? (fun e => e.from_ == name && e.escrow_id == escrow_id)

/-- Modelled from the spec: `get(from, escrow_id) -> Record | fails NotFound`. -/
def database.get_escrow (db : database) (name : account_name_type) (escrow_id : Nat) :
    outcome escrow_object :=
  db.eval (db.find_escrow name escrow_id)

/-- Modelled from the spec: `create(initializer)`.  A record is identified by its pair
`(from, escrow_id)`, so the store takes no second record under a pair it already holds:
creating one throws. -/
def database.create (db : database) (esc : escrow_object) : outcome database :=
  if (db.find_escrow esc.from_ esc.escrow_id).isSome then .error db
  else .ok { db with escrows := db.escrows ++ [esc] }

/-- Modelled from the spec: `modify(record, mutator)`, the mutator applied to the stored
record `e` refers to. -/
def database.modify (db : database) (e : escrow_object) (f : escrow_object → escrow_object) :
    database :=
  { db with escrows :=
      modify_first (fun x => x.from_ == e.from_ && x.escrow_id == e.escrow_id) f db.escrows }

/-- Modelled from the spec: `remove(record)`, the stored record `e` refers to leaves the
store. -/
def database.remove (db : database) (e : escrow_object) : database :=
  { db with escrows :=
      db.escrows.eraseP (fun x => x.from_ == e.from_ && x.escrow_id == e.escrow_id) }

/-! ## The evaluators -/

/-- Create: `escrow_transfer_evaluator::do_apply`. -/
def escrow_transfer_evaluator.do_apply (db : database) (o : escrow_transfer_operation) :
    outcome database := do
  let from_account ← db.get_account o.from_
  let _ ← db.get_account o.to_
  let _ ← db.get_account o.agent
  FC_ASSERT db (decide (o.ratification_deadline > db.head_block_time))
  FC_ASSERT db (decide (o.escrow_expiration > db.head_block_time))
  let mut steem_spent := o.steem_amount
  let mut sbd_spent := o.sbd_amount
  if o.fee.symbol = STEEM_SYMBOL_NAME then
    steem_spent ← db.eval (steem_spent.add o.fee)
  else
    sbd_spent ← db.eval (sbd_spent.add o.fee)
  let steem_available ← db.get_balance from_account.name STEEM_SYMBOL_NAME
  let steem_covered ← db.eval (steem_available.ge steem_spent)
  FC_ASSERT db steem_covered
  let sbd_available ← db.get_balance from_account.name SBD_SYMBOL_NAME
  let sbd_covered ← db.eval (sbd_available.ge sbd_spent)
  FC_ASSERT db sbd_covered
  let db1 := db.adjust_balance from_account steem_spent.neg
  let db2 := db1.adjust_balance from_account sbd_spent.neg
  db2.create
    { escrow_id := o.escrow_id
      from_ := o.from_
      to_ := o.to_
      agent := o.agent
      ratification_deadline := o.ratification_deadline
      escrow_expiration := o.escrow_expiration
      sbd_balance := o.sbd_amount
      steem_balance := o.steem_amount
      pending_fee := o.fee }

/-- Approve / Reject: `escrow_approve_evaluator::do_apply`.  `escrow` is a reference to the
stored record, so after a `modify` it reads the modified fields. -/
def escrow_approve_evaluator.do_apply (db0 : database) (o : escrow_approve_operation) :
    outcome database := do
  let mut db := db0
  let mut escrow ← db.get_escrow o.from_ o.escrow_id
  FC_ASSERT db (escrow.to_ == o.to_)
  FC_ASSERT db (escrow.agent == o.agent)
  FC_ASSERT db (decide (escrow.ratification_deadline ≥ db.head_block_time))
  let reject_escrow := !o.approve
  if o.who == o.to_ then
    FC_ASSERT db (!escrow.to_approved)
    if !reject_escrow then
      db := db.modify escrow (fun esc => { esc with to_approved := true })
      escrow := { escrow with to_approved := true }
  if o.who == o.agent then
    FC_ASSERT db (!escrow.agent_approved)
    if !reject_escrow then
      db := db.modify escrow (fun esc => { esc with agent_approved := true })
      escrow := { escrow with agent_approved := true }
  if reject_escrow then
    let from_account ← db.get_account o.from_
    db := db.adjust_balance from_account escrow.steem_balance
    db := db.adjust_balance from_account escrow.sbd_balance
    db := db.adjust_balance from_account escrow.pending_fee
    db := db.remove escrow
  else if escrow.to_approved && escrow.agent_approved then
    let agent_account ← db.get_account o.agent
    db := db.adjust_balance agent_account escrow.pending_fee
    db := db.modify escrow (fun esc => { esc with pending_fee := { esc.pending_fee with amount := 0 } })
  return db

/-- Dispute: `escrow_dispute_evaluator::do_apply`. -/
def escrow_dispute_evaluator.do_apply (db : database) (o : escrow_dispute_operation) :
    outcome database := do
  let _ ← db.get_account o.from_
  let e ← db.get_escrow o.from_ o.escrow_id
  FC_ASSERT db (decide (db.head_block_time < e.escrow_expiration))
  FC_ASSERT db (e.to_approved && e.agent_approved)
  FC_ASSERT db (!e.disputed)
  FC_ASSERT db (e.to_ == o.to_)
  FC_ASSERT db (e.agent == o.agent)
  return db.modify e (fun esc => { esc with disputed := true })

/-- Release: `escrow_release_evaluator::do_apply`.  The two `-=` of the `modify` callback work
on the stored record `e` refers to; they are evaluated on `e` and stored by the callback. -/
def escrow_release_evaluator.do_apply (db : database) (o : escrow_release_operation) :
    outcome database := do
  let _ ← db.get_account o.from_
  let receiver_account ← db.get_account o.receiver
  let e ← db.get_escrow o.from_ o.escrow_id
  let steem_covered ← db.eval (e.steem_balance.ge o.steem_amount)
  FC_ASSERT db steem_covered
  let sbd_covered ← db.eval (e.sbd_balance.ge o.sbd_amount)
  FC_ASSERT db sbd_covered
  FC_ASSERT db (e.to_ == o.to_)
  FC_ASSERT db (e.agent == o.agent)
  FC_ASSERT db (o.receiver == e.from_ || o.receiver == e.to_)
  FC_ASSERT db (e.to_approved && e.agent_approved)
  if e.disputed then
    FC_ASSERT db (o.who == e.agent)
  else
    FC_ASSERT db (o.who == e.from_ || o.who == e.to_)
    if e.escrow_expiration > db.head_block_time then
      if o.who == e.from_ then
        FC_ASSERT db (o.receiver == e.to_)
      else if o.who == e.to_ then
        FC_ASSERT db (o.receiver == e.from_)
  let db1 := db.adjust_balance receiver_account o.steem_amount
  let db2 := db1.adjust_balance receiver_account o.sbd_amount
  let steem_balance ← db2.eval (e.steem_balance.sub o.steem_amount)
  let sbd_balance ← db2.eval (e.sbd_balance.sub o.sbd_amount)
  let db3 := db2.modify e (fun esc => { esc with steem_balance := steem_balance, sbd_balance := sbd_balance })
  if steem_balance.amount == 0 && sbd_balance.amount == 0 then
    return db3.remove e
  return db3

end steemit.chain

namespace steemit.chain

open asset_symbol_type

/-! ## Accounting -/

/-- What a record holds of currency `s`: its two balances and its pending fee. -/
def escrow_object.held (e : escrow_object) (s : asset_symbol_type) : Int :=
  e.steem_balance.of_symbol s + e.sbd_balance.of_symbol s + e.pending_fee.of_symbol s

/-- The total of currency `s` in a database: all account balances plus all that the stored
escrow records hold. -/
def database.total (db : database) (s : asset_symbol_type) : Int :=
  (db.accounts.map (fun a => a.holding s)).sum + (db.escrows.map (fun e => e.held s)).sum

/-- The balance of the named account in currency `s`, if the account exists. -/
def database.balance_of (db : database) (name : account_name_type) (s : asset_symbol_type) :
    Option Int :=
  (db.find_account name).map (fun a => a.holding s)

/-- Data-model invariant of the escrow store: a record that both parties approved holds no
fee any more. -/
def database.fee_settled (db : database) : Prop :=
  ∀ e ∈ db.escrows, e.to_approved = true → e.agent_approved = true → e.pending_fee.amount = 0

/-- The four operations of the evaluator as one type. -/
inductive operation where
  | escrow_transfer (o : escrow_transfer_operation)
  | escrow_approve (o : escrow_approve_operation)
  | escrow_dispute (o : escrow_dispute_operation)
  | escrow_release (o : escrow_release_operation)
deriving DecidableEq, Repr

/-- Dispatch of an operation to its evaluator. -/
def apply_operation (db : database) : operation → outcome database
  | .escrow_transfer o => escrow_transfer_evaluator.do_apply db o
  | .escrow_approve o => escrow_approve_evaluator.do_apply db o
  | .escrow_dispute o => escrow_dispute_evaluator.do_apply db o
  | .escrow_release o => escrow_release_evaluator.do_apply db o

/-- The database a successful Release leaves, given the receiver account and the record it
found. -/
def release_result (db : database) (o : escrow_release_operation) (r : account_object)
    (e : escrow_object) : database :=
  let steem_balance : asset := { e.steem_balance with amount := e.steem_balance.amount - o.steem_amount.amount }
  let sbd_balance : asset := { e.sbd_balance with amount := e.sbd_balance.amount - o.sbd_amount.amount }
  let db3 := ((db.adjust_balance r o.steem_amount).adjust_balance r o.sbd_amount).modify e
    (fun esc => { esc with steem_balance := steem_balance, sbd_balance := sbd_balance })
  if steem_balance.amount == 0 && sbd_balance.amount == 0 then db3.remove e else db3

/-- Who may release to whom, as the Release evaluator decides it on a record. -/
def release_authorized (db : database) (o : escrow_release_operation) (e : escrow_object) : Prop :=
  if e.disputed = true then o.who = e.agent
  else (o.who = e.from_ ∨ o.who = e.to_) ∧
    (db.head_block_time < e.escrow_expiration →
      (o.who = e.from_ → o.receiver = e.to_) ∧
      (o.who ≠ e.from_ → o.who = e.to_ → o.receiver = e.from_))

/-- Every check of the Release evaluator on the record it found. -/
def release_checks (db : database) (o : escrow_release_operation) (e : escrow_object) : Prop :=
  e.steem_balance.ge o.steem_amount = some true ∧ e.sbd_balance.ge o.sbd_amount = some true ∧
  e.to_ = o.to_ ∧ e.agent = o.agent ∧ (o.receiver = e.from_ ∨ o.receiver = e.to_) ∧
  (e.to_approved = true ∧ e.agent_approved = true) ∧ release_authorized db o e

instance (db : database) (o : escrow_release_operation) (e : escrow_object) :
    Decidable (release_authorized db o e) := by
  unfold release_authorized; infer_instance

instance (db : database) (o : escrow_release_operation) (e : escrow_object) :
    Decidable (release_checks db o e) := by
  unfold release_checks; infer_instance

/-- Every check of the Dispute evaluator on the record it found. -/
def dispute_checks (db : database) (o : escrow_dispute_operation) (e : escrow_object) : Prop :=
  db.head_block_time < e.escrow_expiration ∧ (e.to_approved = true ∧ e.agent_approved = true) ∧
  e.disputed = false ∧ e.to_ = o.to_ ∧ e.agent = o.agent

instance (db : database) (o : escrow_dispute_operation) (e : escrow_object) :
    Decidable (dispute_checks db o e) := by
  unfold dispute_checks; infer_instance

/-- The record a Create stores. -/
def transfer_record (o : escrow_transfer_operation) : escrow_object :=
  { escrow_id := o.escrow_id
    from_ := o.from_
    to_ := o.to_
    agent := o.agent
    ratification_deadline := o.ratification_deadline
    escrow_expiration := o.escrow_expiration
    sbd_balance := o.sbd_amount
    steem_balance := o.steem_amount
    pending_fee := o.fee }

/-- What a Create spends of each currency, `(steem_spent, sbd_spent)`: the amounts with the
fee added to the one of its currency. -/
def transfer_spent (o : escrow_transfer_operation) : Option (asset × asset) :=
  if o.fee.symbol = STEEM_SYMBOL_NAME then (o.steem_amount.add o.fee).map (fun s => (s, o.sbd_amount))
  else (o.sbd_amount.add o.fee).map (fun s => (o.steem_amount, s))

/-- The checks of the Create evaluator that follow the account lookups, on the `from`
account and the amounts spent. -/
def transfer_checks (db : database) (o : escrow_transfer_operation) (f : account_object)
    (spent : asset × asset) : Prop :=
  (db.head_block_time < o.ratification_deadline ∧ db.head_block_time < o.escrow_expiration) ∧
  (asset.mk f.balance STEEM_SYMBOL_NAME).ge spent.1 = some true ∧
  (asset.mk f.sbd_balance SBD_SYMBOL_NAME).ge spent.2 = some true

instance (db : database) (o : escrow_transfer_operation) (f : account_object)
    (spent : asset × asset) : Decidable (transfer_checks db o f spent) := by
  unfold transfer_checks; infer_instance

/-- The database a Reject leaves, given the `from` account and the record it found. -/
def reject_result (db : database) (f : account_object) (e : escrow_object) : database :=
  (((db.adjust_balance f e.steem_balance).adjust_balance f e.sbd_balance).adjust_balance f
    e.pending_fee).remove e

/-- The checks every Approve makes first on the record it found. -/
def approve_checks (db : database) (o : escrow_approve_operation) (e : escrow_object) : Prop :=
  e.to_ = o.to_ ∧ e.agent = o.agent ∧ db.head_block_time ≤ e.ratification_deadline

instance (db : database) (o : escrow_approve_operation) (e : escrow_object) :
    Decidable (approve_checks db o e) := by
  unfold approve_checks; infer_instance

/-- The record after the first block of an approving Approve (`who == to`). -/
def approve_e1 (o : escrow_approve_operation) (e : escrow_object) : escrow_object :=
  if o.who = o.to_ then { e with to_approved := true } else e

/-- The database after the first block of an approving Approve (`who == to`). -/
def approve_db1 (db : database) (o : escrow_approve_operation) (e : escrow_object) : database :=
  if o.who = o.to_ then db.modify e (fun esc => { esc with to_approved := true }) else db

/-- The record after the second block of an approving Approve (`who == agent`). -/
def approve_e2 (o : escrow_approve_operation) (e : escrow_object) : escrow_object :=
  if o.who = o.agent then { approve_e1 o e with agent_approved := true } else approve_e1 o e

/-- The database after the second block of an approving Approve (`who == agent`). -/
def approve_db2 (db : database) (o : escrow_approve_operation) (e : escrow_object) : database :=
  if o.who = o.agent then
    (approve_db1 db o e).modify (approve_e1 o e) (fun esc => { esc with agent_approved := true })
  else approve_db1 db o e

/-- The database an Approve leaves that completed the ratification, given the agent
account: the fee paid out and cleared on the record. -/
def approve_paid (db : database) (o : escrow_approve_operation) (e : escrow_object)
    (a : account_object) : database :=
  ((approve_db2 db o e).adjust_balance a (approve_e2 o e).pending_fee).modify (approve_e2 o e)
    (fun esc => { esc with pending_fee := { esc.pending_fee with amount := 0 } })

/-- Data-model invariant of the escrow store: no two stored records have the same pair
`(from, escrow_id)`. -/
def database.unique_keys (db : database) : Prop :=
  db.escrows.Pairwise (fun a b => ¬ (a.from_ = b.from_ ∧ a.escrow_id = b.escrow_id))

instance (db : database) : Decidable db.unique_keys := by
  unfold database.unique_keys; infer_instance

instance (db : database) : Decidable db.fee_settled := by
  unfold database.fee_settled; infer_instance

deriving instance DecidableEq for Except

/-! ## The scenario of section 8 of the spec, as concrete data -/

/-- An amount of the first currency. -/
def steem (n : Int) : asset := { amount := n, symbol := STEEM_SYMBOL_NAME }

/-- An amount of the second currency. -/
def sbd (n : Int) : asset := { amount := n, symbol := SBD_SYMBOL_NAME }

/-- The ledger before anything is in escrow: alice (A), bob (B), carol (C) and an
onlooker, at time 100. -/
def scenario_genesis : database :=
  { accounts := [⟨"alice", 200, 50⟩, ⟨"bob", 0, 0⟩, ⟨"carol", 0, 0⟩, ⟨"dave", 7, 7⟩]
    escrows := []
    head_block_time := 100 }

/-- Create of scenario A: 100 of the first currency from alice to bob, carol the agent,
fee 5, deadline +10, expiration +20. -/
def scenario_create : escrow_transfer_operation :=
  { from_ := "alice", to_ := "bob", agent := "carol", escrow_id := 1
    sbd_amount := sbd 0, steem_amount := steem 100, fee := steem 5
    ratification_deadline := 110, escrow_expiration := 120 }

/-- The record that Create stores. -/
def scenario_record : escrow_object :=
  { escrow_id := 1, from_ := "alice", to_ := "bob", agent := "carol"
    ratification_deadline := 110, escrow_expiration := 120
    sbd_balance := sbd 0, steem_balance := steem 100, pending_fee := steem 5 }

/-- The ledger after the Create. -/
def scenario_created : database :=
  { accounts := [⟨"alice", 95, 50⟩, ⟨"bob", 0, 0⟩, ⟨"carol", 0, 0⟩, ⟨"dave", 7, 7⟩]
    escrows := [scenario_record]
    head_block_time := 100 }

/-- The ledger after bob approved. -/
def scenario_half_ratified : database :=
  { scenario_created with escrows := [{ scenario_record with to_approved := true }] }

/-- The record after both approvals: the fee is paid out. -/
def scenario_ratified_record : escrow_object :=
  { scenario_record with to_approved := true, agent_approved := true, pending_fee := steem 0 }

/-- The ledger after both approvals. -/
def scenario_ratified : database :=
  { accounts := [⟨"alice", 95, 50⟩, ⟨"bob", 0, 0⟩, ⟨"carol", 5, 0⟩, ⟨"dave", 7, 7⟩]
    escrows := [scenario_ratified_record]
    head_block_time := 100 }

/-- The ledger after both approvals and a dispute. -/
def scenario_disputed : database :=
  { scenario_ratified with escrows := [{ scenario_ratified_record with disputed := true }] }

/-- The ratified ledger at the very time of the expiration. -/
def scenario_expired : database :=
  { scenario_ratified with head_block_time := 120 }

/-- The ledger after the whole balance was released to bob. -/
def scenario_settled : database :=
  { accounts := [⟨"alice", 95, 50⟩, ⟨"bob", 100, 0⟩, ⟨"carol", 5, 0⟩, ⟨"dave", 7, 7⟩]
    escrows := []
    head_block_time := 100 }

/-- Release of the whole balance to bob, by `who`. -/
def scenario_release (who receiver : account_name_type) : escrow_release_operation :=
  { from_ := "alice", to_ := "bob", agent := "carol", who := who, receiver := receiver
    escrow_id := 1, sbd_amount := sbd 0, steem_amount := steem 100 }

/-- Approve or reject of the scenario's escrow by `who`. -/
def scenario_approve (who : account_name_type) (approve : Bool) : escrow_approve_operation :=
  { from_ := "alice", to_ := "bob", agent := "carol", who := who, escrow_id := 1
    approve := approve }

/-- The ratified ledger after the escrow was taken back: the held balance is with alice
again, the fee stays with carol. -/
def scenario_annulled : database :=
  { accounts := [⟨"alice", 195, 50⟩, ⟨"bob", 0, 0⟩, ⟨"carol", 5, 0⟩, ⟨"dave", 7, 7⟩]
    escrows := []
    head_block_time := 100 }

/-! ## Runs of the evaluator -/

/-- The states reached from an empty escrow store by operations that complete and that all
meet `P`.  Between two operations time passes and the rest of the ledger moves balances: any
change that leaves the escrow store alone. -/
inductive reachable_by (P : operation → Prop) : database → Prop where
  | empty (db : database) (h : db.escrows = []) : reachable_by P db
  | step (db db1 : database) (op : operation) (hr : reachable_by P db) (hp : P op)
      (h : apply_operation db op = .ok db1) : reachable_by P db1
  | other (db db1 : database) (hr : reachable_by P db) (h : db1.escrows = db.escrows) :
      reachable_by P db1

/-- The states reached from an empty escrow store by any sequence of Create, Approve, Dispute
and Release operations that complete. -/
def reachable (db : database) : Prop := reachable_by (fun _ => True) db

/-- Modelled from the spec: the transaction-application layer that invokes an evaluator and
receives what it throws is not among the sources.  Section 7 of the spec has every failure
abort the whole operation with zero side effects, and section 2 has an operation either
commit all its mutations or be rejected with nothing changed: the layer keeps the database
of a run that completed, and the database from before the run when the evaluator threw. -/
def database.apply_with_undo (db : database) (op : operation) : database :=
  match apply_operation db op with
  | .ok db1 => db1
  | .error _ => db

/-- A ledger outside the scenario: bob is both `to` and `agent` of the escrow, and only the
agent's approval flag is set. -/
def scenario_same_party : database :=
  { scenario_created with
    escrows := [{ scenario_record with agent := "bob", agent_approved := true }] }

/-- Approval by bob as `to` and `agent` at once. -/
def scenario_approve_both : escrow_approve_operation :=
  { from_ := "alice", to_ := "bob", agent := "bob", who := "bob", escrow_id := 1, approve := true }

/-- An operation puts no negative amount in escrow: the two amounts of a Create are not below
zero. -/
def operation.escrows_nonneg : operation → Prop
  | .escrow_transfer o => 0 ≤ o.steem_amount.amount ∧ 0 ≤ o.sbd_amount.amount
  | _ => True

/-- An operation puts something in escrow: the two amounts of a Create are not both zero. -/
def operation.escrows_nonzero : operation → Prop
  | .escrow_transfer o => ¬ (o.steem_amount.amount = 0 ∧ o.sbd_amount.amount = 0)
  | _ => True

/-- A Create of a negative amount, with no fee. -/
def scenario_create_negative : escrow_transfer_operation :=
  { scenario_create with steem_amount := steem (-5), fee := steem 0 }

/-- The ledger after the Create of a negative amount: alice is credited, the record holds -5. -/
def scenario_overdrawn : database :=
  { accounts := [⟨"alice", 205, 50⟩, ⟨"bob", 0, 0⟩, ⟨"carol", 0, 0⟩, ⟨"dave", 7, 7⟩]
    escrows := [{ scenario_record with steem_balance := steem (-5), pending_fee := steem 0 }]
    head_block_time := 100 }

/-- A Release of a negative amount from the ratified escrow. -/
def scenario_release_negative : escrow_release_operation :=
  { scenario_release "alice" "bob" with steem_amount := steem (-10) }

/-- The ledger after the Release of a negative amount: bob is debited, the record holds 110. -/
def scenario_inflated : database :=
  { accounts := [⟨"alice", 95, 50⟩, ⟨"bob", -10, 0⟩, ⟨"carol", 5, 0⟩, ⟨"dave", 7, 7⟩]
    escrows := [{ scenario_ratified_record with steem_balance := steem 110 }]
    head_block_time := 100 }

/-- A Create that puts nothing in escrow, with a fee of 5. -/
def scenario_create_nothing : escrow_transfer_operation :=
  { scenario_create with steem_amount := steem 0 }

/-- The ledger after the Create of nothing: alice has paid the fee, the record holds zero of
both currencies. -/
def scenario_hollow : database :=
  { accounts := [⟨"alice", 195, 50⟩, ⟨"bob", 0, 0⟩, ⟨"carol", 0, 0⟩, ⟨"dave", 7, 7⟩]
    escrows := [{ scenario_record with steem_balance := steem 0 }]
    head_block_time := 100 }

/-- A Create in which alice names herself as `to`. -/
def scenario_self_create : escrow_transfer_operation :=
  { scenario_create with to_ := "alice" }

/-- The record that Create stores: `from` and `to` are the same account. -/
def scenario_self_record : escrow_object :=
  { scenario_record with to_ := "alice" }

/-- The ledger after alice, as `to`, and carol have approved that escrow. -/
def scenario_self_ratified : database :=
  { scenario_ratified with escrows := [{ scenario_ratified_record with to_ := "alice" }] }

/-- Release of the whole balance of that escrow by alice to herself. -/
def scenario_self_release : escrow_release_operation :=
  { scenario_release "alice" "alice" with to_ := "alice" }

/-- Release of 40 of the 100 held, by alice to bob. -/
def scenario_release_part : escrow_release_operation :=
  { scenario_release "alice" "bob" with steem_amount := steem 40 }

/-- The ledger after that partial release: bob has 40, the record holds 60. -/
def scenario_part_released : database :=
  { accounts := [⟨"alice", 95, 50⟩, ⟨"bob", 40, 0⟩, ⟨"carol", 5, 0⟩, ⟨"dave", 7, 7⟩]
    escrows := [{ scenario_ratified_record with steem_balance := steem 60 }]
    head_block_time := 100 }

/-! ## Lemmas on the collaborators -/

section lists

variable {α : Type}

theorem modify_first_of_find_none (p : α → Bool) (f : α → α) (l : List α)
    (h : l.find? p = none) : modify_first p f l = l := by
  induction l with
  | nil => rfl
  | cons x xs ih =>
    cases hp : p x
    · simp only [List.find?, hp] at h
      simp [modify_first, hp, ih h]
    · simp [List.find?, hp] at h

theorem find_modify_first (p : α → Bool) (f : α → α) (hpf : ∀ x, p (f x) = p x) (l : List α) :
    (modify_first p f l).find? p = (l.find? p).map f := by
  induction l with
  | nil => rfl
  | cons x xs ih =>
    cases hp : p x
    · simp [modify_first, hp, List.find?, ih]
    · simp [modify_first, hp, List.find?, hpf]

theorem find_modify_first_other (p q : α → Bool) (f : α → α) (hq : ∀ x, q (f x) = q x)
    (hpq : ∀ x, p x = true → q x = false) (l : List α) :
    (modify_first p f l).find? q = l.find? q := by
  induction l with
  | nil => rfl
  | cons x xs ih =>
    cases hp : p x
    · cases hqx : q x <;> simp [modify_first, hp, List.find?, hqx, ih]
    · have h1 := hpq x hp
      have h2 : q (f x) = false := by rw [hq, h1]
      simp [modify_first, hp, List.find?, h1, h2]

theorem sum_modify_first (p : α → Bool) (f : α → α) (g : α → Int) (l : List α) (x : α)
    (h : l.find? p = some x) :
    ((modify_first p f l).map g).sum = (l.map g).sum - g x + g (f x) := by
  induction l with
  | nil => simp at h
  | cons y ys ih =>
    cases hp : p y
    · simp only [List.find?, hp] at h
      simp only [modify_first, hp, List.map_cons, List.sum_cons, ih h]
      simp only [Bool.false_eq_true, if_false, List.map_cons, List.sum_cons, ih h]
      ring
    · simp only [List.find?, hp, Option.some.injEq] at h
      subst h
      simp only [modify_first, hp, if_true, List.map_cons, List.sum_cons]
      ring

theorem sum_eraseP (p : α → Bool) (g : α → Int) (l : List α) (x : α)
    (h : l.find? p = some x) :
    ((l.eraseP p).map g).sum = (l.map g).sum - g x := by
  induction l with
  | nil => simp at h
  | cons y ys ih =>
    cases hp : p y
    · simp only [List.find?, hp] at h
      simp [List.eraseP_cons, hp, ih h]
      ring
    · simp only [List.find?, hp, Option.some.injEq] at h
      subst h
      simp [List.eraseP_cons, hp]

theorem mem_modify_first (p : α → Bool) (f : α → α) (l : List α) (y : α)
    (h : y ∈ modify_first p f l) : y ∈ l ∨ ∃ x, l.find? p = some x ∧ y = f x := by
  induction l with
  | nil => simp [modify_first] at h
  | cons x xs ih =>
    cases hp : p x
    · simp only [modify_first, hp, Bool.false_eq_true, if_false, List.mem_cons] at h
      rcases h with h | h
      · exact Or.inl (by simp [h])
      · rcases ih h with h | ⟨z, hz, hy⟩
        · exact Or.inl (List.mem_cons_of_mem _ h)
        · exact Or.inr ⟨z, by simp [List.find?, hp, hz], hy⟩
    · simp only [modify_first, hp, if_true, List.mem_cons] at h
      rcases h with h | h
      · exact Or.inr ⟨x, by simp [List.find?, hp], h⟩
      · exact Or.inl (List.mem_cons_of_mem _ h)

end lists

end steemit.chain

namespace steemit.chain

open asset_symbol_type

/-! ## Lemmas on the evaluators -/

section run

variable {α β : Type}

theorem eval_some_bind (db : database) (a : α) (f : α → outcome β) :
    (db.eval (some a) >>= f) = f a := rfl

theorem eval_none_bind (db : database) (f : α → outcome β) :
    (db.eval (none : Option α) >>= f) = .error db := rfl

theorem assert_true_bind (db : database) (f : Unit → outcome β) :
    (FC_ASSERT db true >>= f) = f () := rfl

theorem assert_false_bind (db : database) (f : Unit → outcome β) :
    (FC_ASSERT db false >>= f) = .error db := rfl

end run

theorem asset_ge_true {a b : asset} (h : a.ge b = some true) :
    a.symbol = b.symbol ∧ b.amount ≤ a.amount := by
  unfold asset.ge at h
  split at h
  · exact ⟨by assumption, by simpa using h⟩
  · simp at h

theorem asset_sub_of_ge {a b : asset} (h : a.ge b = some true) :
    a.sub b = some { a with amount := a.amount - b.amount } := by
  simp [asset.sub, (asset_ge_true h).1]

/-- Release in closed form: the run completes with `release_result` when both accounts and
the record exist and every check passes, and throws with the database untouched otherwise. -/
theorem release_eq (db : database) (o : escrow_release_operation) :
    escrow_release_evaluator.do_apply db o =
      match db.find_account o.from_, db.find_account o.receiver,
          db.find_escrow o.from_ o.escrow_id with
      | some _, some r, some e =>
        if release_checks db o e then .ok (release_result db o r e) else .error db
      | _, _, _ => .error db := by
  unfold escrow_release_evaluator.do_apply
  simp only [database.get_account, database.get_escrow]
  cases hf : db.find_account o.from_ <;> simp only [eval_some_bind, eval_none_bind]
  cases hr : db.find_account o.receiver <;> simp only [eval_some_bind, eval_none_bind]
  cases he : db.find_escrow o.from_ o.escrow_id <;> simp only [eval_some_bind, eval_none_bind]
  rename_i f r e
  have no : ∀ {x : database}, ¬ release_checks db o e →
      Except.error db = if release_checks db o e then Except.ok x else Except.error db :=
    fun hn => (if_neg hn).symm
  cases h1 : e.steem_balance.ge o.steem_amount <;> simp only [eval_some_bind, eval_none_bind]
  · exact no (by simp [release_checks, h1])
  rename_i b1
  cases b1 <;> simp only [assert_true_bind, assert_false_bind]
  · exact no (by simp [release_checks, h1])
  cases h2 : e.sbd_balance.ge o.sbd_amount <;> simp only [eval_some_bind, eval_none_bind]
  · exact no (by simp [release_checks, h2])
  rename_i b2
  cases b2 <;> simp only [assert_true_bind, assert_false_bind]
  · exact no (by simp [release_checks, h2])
  cases h3 : e.to_ == o.to_ <;> simp only [assert_true_bind, assert_false_bind]
  · exact no (by simp only [release_checks]; simp at h3; tauto)
  cases h4 : e.agent == o.agent <;> simp only [assert_true_bind, assert_false_bind]
  · exact no (by simp only [release_checks]; simp at h4; tauto)
  cases h5 : (o.receiver == e.from_ || o.receiver == e.to_) <;>
    simp only [assert_true_bind, assert_false_bind]
  · exact no (by simp only [release_checks]; simp at h5; tauto)
  cases h6 : (e.to_approved && e.agent_approved) <;>
    simp only [assert_true_bind, assert_false_bind]
  · exact no (by simp only [release_checks]; simp at h6; intro hc; simp_all)
  simp only [asset_sub_of_ge h1, asset_sub_of_ge h2, eval_some_bind]
  simp only [beq_iff_eq, Bool.or_eq_true, Bool.and_eq_true] at h3 h4 h5 h6
  have base : release_checks db o e ↔ release_authorized db o e := by
    simp only [release_checks]; tauto
  have yes : ∀ {c : Bool} {A B : database}, release_authorized db o e →
      (if c = true then A else B) = release_result db o r e →
      (if c = true then (pure A : outcome database) else (do pure PUnit.unit; pure B)) =
        if release_checks db o e then Except.ok (release_result db o r e) else Except.error db := by
    intro c A B ha hc
    rw [if_pos (base.2 ha), ← hc]
    cases c <;> rfl
  have no2 : ∀ {x : database}, ¬ release_authorized db o e →
      Except.error db = if release_checks db o e then Except.ok x else Except.error db :=
    fun hn => no (fun hc => hn (base.1 hc))
  cases hd : e.disputed <;> simp only [if_true, if_false, Bool.false_eq_true]
  · cases hw : (o.who == e.from_ || o.who == e.to_) <;>
      simp only [assert_true_bind, assert_false_bind]
    · exact no2 (by simp only [release_authorized, hd]; simp at hw; simp [hw])
    have hw1 : o.who = e.from_ ∨ o.who = e.to_ := by simpa using hw
    by_cases hx : e.escrow_expiration > db.head_block_time
    · simp only [hx, if_true]
      cases hwf : o.who == e.from_ <;> simp only [if_true, if_false, Bool.false_eq_true]
      · cases hwt : o.who == e.to_ <;> simp only [if_true, if_false, Bool.false_eq_true]
        · simp_all
        · cases hrf : o.receiver == e.from_ <;>
            simp only [assert_true_bind, assert_false_bind]
          · refine no2 ?_
            simp only [release_authorized, hd]
            simp at hwf hwt hrf
            intro hc
            exact hrf (((hc.2 hx).2 hwf) hwt)
          · refine yes ?_ rfl
            simp only [release_authorized, hd, Bool.false_eq_true, if_false]
            simp at hwf hwt hrf
            exact ⟨hw1, fun _ => ⟨fun hc => absurd hc hwf, fun _ _ => hrf⟩⟩
      · cases hrt : o.receiver == e.to_ <;>
          simp only [assert_true_bind, assert_false_bind]
        · refine no2 ?_
          simp only [release_authorized, hd]
          simp at hwf hrt
          intro hc
          exact hrt (((hc.2 hx).1 hwf))
        · refine yes ?_ rfl
          simp only [release_authorized, hd, Bool.false_eq_true, if_false]
          simp at hwf hrt
          exact ⟨hw1, fun _ => ⟨fun _ => hrt, fun hc => absurd hwf hc⟩⟩
    · simp only [hx, if_false]
      refine yes ?_ rfl
      simp only [release_authorized, hd, Bool.false_eq_true, if_false]
      exact ⟨hw1, fun hc => absurd hc hx⟩
  · cases hw : o.who == e.agent <;> simp only [assert_true_bind, assert_false_bind]
    · exact no2 (by simp only [release_authorized, hd]; simpa using hw)
    · exact yes (by simp only [release_authorized, hd]; simpa using hw) rfl

end steemit.chain

namespace steemit.chain

open asset_symbol_type

/-- Dispute in closed form. -/
theorem dispute_eq (db : database) (o : escrow_dispute_operation) :
    escrow_dispute_evaluator.do_apply db o =
      match db.find_account o.from_, db.find_escrow o.from_ o.escrow_id with
      | some _, some e =>
        if dispute_checks db o e then .ok (db.modify e (fun esc => { esc with disputed := true }))
        else .error db
      | _, _ => .error db := by
  unfold escrow_dispute_evaluator.do_apply
  simp only [database.get_account, database.get_escrow]
  cases hf : db.find_account o.from_ <;> simp only [eval_some_bind, eval_none_bind]
  cases he : db.find_escrow o.from_ o.escrow_id <;> simp only [eval_some_bind, eval_none_bind]
  rename_i f e
  have no : ∀ {x : database}, ¬ dispute_checks db o e →
      Except.error db = if dispute_checks db o e then Except.ok x else Except.error db :=
    fun hn => (if_neg hn).symm
  by_cases h0 : db.head_block_time < e.escrow_expiration
  swap
  · simp only [h0, decide_False, assert_false_bind]
    exact no (fun hc => h0 hc.1)
  simp only [h0, decide_True, assert_true_bind]
  cases h1 : (e.to_approved && e.agent_approved) <;>
    simp only [assert_true_bind, assert_false_bind]
  · exact no (by simp only [dispute_checks]; simp at h1; intro hc; simp_all)
  cases h2 : e.disputed <;> simp only [Bool.not_true, Bool.not_false, assert_true_bind, assert_false_bind]
  swap
  · exact no (by simp only [dispute_checks]; intro hc; simp_all)
  cases h3 : e.to_ == o.to_ <;> simp only [assert_true_bind, assert_false_bind]
  · exact no (by simp only [dispute_checks]; simp at h3; tauto)
  cases h4 : e.agent == o.agent <;> simp only [assert_true_bind, assert_false_bind]
  · exact no (by simp only [dispute_checks]; simp at h4; tauto)
  simp only [beq_iff_eq, Bool.and_eq_true] at h1 h3 h4
  rw [if_pos ⟨h0, h1, h2, h3, h4⟩]
  rfl

end steemit.chain

namespace steemit.chain

open asset_symbol_type

theorem find_account_name {db : database} {n : account_name_type} {a : account_object}
    (h : db.find_account n = some a) : a.name = n := by
  have := List.find?_some h
  simpa using this

theorem find_escrow_key {db : database} {n : account_name_type} {i : Nat} {e : escrow_object}
    (h : db.find_escrow n i = some e) : e.from_ = n ∧ e.escrow_id = i := by
  have := List.find?_some h
  simpa using this

/-- Create in closed form. -/
theorem transfer_eq (db : database) (o : escrow_transfer_operation) :
    escrow_transfer_evaluator.do_apply db o =
      match db.find_account o.from_, db.find_account o.to_, db.find_account o.agent with
      | some f, some _, some _ =>
        match transfer_spent o with
        | some spent =>
          if transfer_checks db o f spent then
            ((db.adjust_balance f spent.1.neg).adjust_balance f spent.2.neg).create (transfer_record o)
          else .error db
        | none => .error db
      | _, _, _ => .error db := by
  unfold escrow_transfer_evaluator.do_apply
  simp only [database.get_account, database.get_escrow, database.get_balance]
  cases hf : db.find_account o.from_ <;> simp only [eval_some_bind, eval_none_bind]
  cases ht : db.find_account o.to_ <;> simp only [eval_some_bind, eval_none_bind]
  cases ha : db.find_account o.agent <;> simp only [eval_some_bind, eval_none_bind]
  rename_i f t a
  by_cases h0 : db.head_block_time < o.ratification_deadline
  swap
  · simp only [gt_iff_lt, h0, decide_False, assert_false_bind]
    cases transfer_spent o <;> simp only []
    exact (if_neg (fun hc => h0 hc.1.1)).symm
  simp only [gt_iff_lt, h0, decide_True, assert_true_bind]
  by_cases h1 : db.head_block_time < o.escrow_expiration
  swap
  · simp only [gt_iff_lt, h1, decide_False, assert_false_bind]
    cases transfer_spent o <;> simp only []
    exact (if_neg (fun hc => h1 hc.1.2)).symm
  simp only [gt_iff_lt, h1, decide_True, assert_true_bind]
  have hfn : db.find_account f.name = some f := by rw [find_account_name hf]; exact hf
  have tail : ∀ (ss sd : asset) (X : outcome database),
      (do
        let steem_available ← (do
          let a ← db.eval (db.find_account f.name)
          pure (asset.mk (a.holding STEEM_SYMBOL_NAME) STEEM_SYMBOL_NAME) : outcome asset)
        let steem_covered ← db.eval (steem_available.ge ss)
        FC_ASSERT db steem_covered
        let sbd_available ← (do
          let a ← db.eval (db.find_account f.name)
          pure (asset.mk (a.holding SBD_SYMBOL_NAME) SBD_SYMBOL_NAME) : outcome asset)
        let sbd_covered ← db.eval (sbd_available.ge sd)
        FC_ASSERT db sbd_covered
        X) = if transfer_checks db o f (ss, sd) then X else .error db := by
    intro ss sd X
    simp only [hfn, eval_some_bind, bind_assoc, pure_bind, account_object.holding]
    cases h2 : (asset.mk f.balance STEEM_SYMBOL_NAME).ge ss <;>
      simp only [eval_some_bind, eval_none_bind]
    · exact (if_neg (fun hc => by simp [transfer_checks, h2] at hc)).symm
    rename_i b2
    cases b2 <;> simp only [assert_true_bind, assert_false_bind]
    · exact (if_neg (fun hc => by simp [transfer_checks, h2] at hc)).symm
    cases h3 : (asset.mk f.sbd_balance SBD_SYMBOL_NAME).ge sd <;>
      simp only [eval_some_bind, eval_none_bind]
    · exact (if_neg (fun hc => by simp [transfer_checks, h3] at hc)).symm
    rename_i b3
    cases b3 <;> simp only [assert_true_bind, assert_false_bind]
    · exact (if_neg (fun hc => by simp [transfer_checks, h3] at hc)).symm
    · exact (if_pos ⟨⟨h0, h1⟩, h2, h3⟩).symm
  unfold transfer_spent
  by_cases hs : o.fee.symbol = STEEM_SYMBOL_NAME
  · simp only [hs, if_true]
    cases o.steem_amount.add o.fee <;>
      simp only [eval_some_bind, eval_none_bind, Option.map_some', Option.map_none', pure_bind]
    exact tail _ _ _
  · simp only [hs, if_false]
    cases o.sbd_amount.add o.fee <;>
      simp only [eval_some_bind, eval_none_bind, Option.map_some', Option.map_none', pure_bind]
    exact tail _ _ _

end steemit.chain

namespace steemit.chain

open asset_symbol_type

/-- Reject in closed form. -/
theorem approve_reject_eq (db : database) (o : escrow_approve_operation)
    (hr : o.approve = false) :
    escrow_approve_evaluator.do_apply db o =
      match db.find_escrow o.from_ o.escrow_id with
      | some e =>
        if approve_checks db o e ∧ (o.who = o.to_ → e.to_approved = false) ∧
            (o.who = o.agent → e.agent_approved = false) then
          match db.find_account o.from_ with
          | some f => .ok (reject_result db f e)
          | none => .error db
        else .error db
      | none => .error db := by
  unfold escrow_approve_evaluator.do_apply
  simp only [database.get_account, database.get_escrow, hr]
  cases he : db.find_escrow o.from_ o.escrow_id <;> simp only [eval_some_bind, eval_none_bind]
  rename_i e
  cases h3 : e.to_ == o.to_ <;> simp only [assert_true_bind, assert_false_bind]
  · exact (if_neg (fun hc => by simp [approve_checks] at h3 hc; tauto)).symm
  cases h4 : e.agent == o.agent <;> simp only [assert_true_bind, assert_false_bind]
  · exact (if_neg (fun hc => by simp [approve_checks] at h4 hc; tauto)).symm
  by_cases h0 : db.head_block_time ≤ e.ratification_deadline
  swap
  · simp only [ge_iff_le, h0, decide_False, assert_false_bind]
    exact (if_neg (fun hc => h0 hc.1.2.2)).symm
  simp only [ge_iff_le, h0, decide_True, assert_true_bind]
  simp only [Bool.not_false, Bool.not_true, Bool.false_eq_true, if_false, if_true, pure_bind]
  simp only [beq_iff_eq] at h3 h4
  have hc0 : approve_checks db o e := ⟨h3, h4, h0⟩
  have fin : ∀ (p : Prop) [Decidable p], p →
      (do
        let from_account ← db.eval (db.find_account o.from_)
        pure PUnit.unit
        pure ((((db.adjust_balance from_account e.steem_balance).adjust_balance from_account
          e.sbd_balance).adjust_balance from_account e.pending_fee).remove e) : outcome database) =
      if p then
        match db.find_account o.from_ with
        | some f => Except.ok (reject_result db f e)
        | none => Except.error db
      else Except.error db := by
    intro p _ hp
    rw [if_pos hp]
    cases db.find_account o.from_ <;> rfl
  cases hwt : o.who == o.to_ <;> simp only [if_true, if_false, Bool.false_eq_true]
  · simp only [beq_eq_false_iff_ne, ne_eq] at hwt
    cases hwa : o.who == o.agent <;> simp only [if_true, if_false, Bool.false_eq_true]
    · simp only [beq_eq_false_iff_ne, ne_eq] at hwa
      exact fin _ ⟨hc0, fun hc => absurd hc hwt, fun hc => absurd hc hwa⟩
    · cases haa : e.agent_approved <;>
        simp only [Bool.not_false, Bool.not_true, assert_true_bind, assert_false_bind]
      · exact fin _ ⟨hc0, fun hc => absurd hc hwt, fun _ => trivial⟩
      · simp only [beq_iff_eq] at hwa
        exact (if_neg (fun hc => by simpa using hc.2.2 hwa)).symm
  · simp only [beq_iff_eq] at hwt
    cases hta : e.to_approved <;>
      simp only [Bool.not_false, Bool.not_true, assert_true_bind, assert_false_bind]
    swap
    · exact (if_neg (fun hc => by simpa using hc.2.1 hwt)).symm
    cases hwa : o.who == o.agent <;> simp only [if_true, if_false, Bool.false_eq_true]
    · simp only [beq_eq_false_iff_ne, ne_eq] at hwa
      exact fin _ ⟨hc0, fun _ => trivial, fun hc => absurd hc hwa⟩
    · cases haa : e.agent_approved <;>
        simp only [Bool.not_false, Bool.not_true, assert_true_bind, assert_false_bind]
      · exact fin _ ⟨hc0, fun _ => trivial, fun _ => trivial⟩
      · simp only [beq_iff_eq] at hwa
        exact (if_neg (fun hc => by simpa using hc.2.2 hwa)).symm

end steemit.chain

namespace steemit.chain

open asset_symbol_type

/-- Approve (approving) in closed form.  The second already-approved check throws after the
first block has set `to_approved`, and the agent lookup throws after both blocks. -/
theorem approve_accept_eq (db : database) (o : escrow_approve_operation)
    (hr : o.approve = true) :
    escrow_approve_evaluator.do_apply db o =
      match db.find_escrow o.from_ o.escrow_id with
      | some e =>
        if approve_checks db o e ∧ (o.who = o.to_ → e.to_approved = false) then
          if o.who = o.agent → e.agent_approved = false then
            if (approve_e2 o e).to_approved = true ∧ (approve_e2 o e).agent_approved = true then
              match (approve_db2 db o e).find_account o.agent with
              | some a => .ok (approve_paid db o e a)
              | none => .error (approve_db2 db o e)
            else .ok (approve_db2 db o e)
          else .error (approve_db1 db o e)
        else .error db
      | none => .error db := by
  unfold escrow_approve_evaluator.do_apply
  simp only [database.get_account, database.get_escrow, hr]
  cases he : db.find_escrow o.from_ o.escrow_id <;> simp only [eval_some_bind, eval_none_bind]
  rename_i e
  cases h3 : e.to_ == o.to_ <;> simp only [assert_true_bind, assert_false_bind]
  · exact (if_neg (fun hc => by simp [approve_checks] at h3 hc; tauto)).symm
  cases h4 : e.agent == o.agent <;> simp only [assert_true_bind, assert_false_bind]
  · exact (if_neg (fun hc => by simp [approve_checks] at h4 hc; tauto)).symm
  by_cases h0 : db.head_block_time ≤ e.ratification_deadline
  swap
  · simp only [ge_iff_le, h0, decide_False, assert_false_bind]
    exact (if_neg (fun hc => h0 hc.1.2.2)).symm
  simp only [ge_iff_le, h0, decide_True, assert_true_bind]
  simp only [Bool.not_false, Bool.not_true, Bool.false_eq_true, if_false, if_true, pure_bind]
  simp only [beq_iff_eq] at h3 h4
  have hc0 : approve_checks db o e := ⟨h3, h4, h0⟩
  have fin : ∀ (d : database) (x : escrow_object),
      (if (x.to_approved && x.agent_approved) = true then (do
          let agent_account ← d.eval (d.find_account o.agent)
          pure ((d.adjust_balance agent_account x.pending_fee).modify x
            (fun esc => { esc with pending_fee := { esc.pending_fee with amount := 0 } })) :
            outcome database)
        else pure d) =
      if x.to_approved = true ∧ x.agent_approved = true then
        match d.find_account o.agent with
        | some a => Except.ok ((d.adjust_balance a x.pending_fee).modify x
            (fun esc => { esc with pending_fee := { esc.pending_fee with amount := 0 } }))
        | none => Except.error d
      else Except.ok d := by
    intro d x
    cases hb : (x.to_approved && x.agent_approved)
    · have : ¬ (x.to_approved = true ∧ x.agent_approved = true) := by
        simpa using hb
      simp only [Bool.false_eq_true, if_false, this]
      rfl
    · have : x.to_approved = true ∧ x.agent_approved = true := by
        simpa using hb
      simp only [if_true, this, and_self]
      cases d.find_account o.agent <;> rfl
  generalize hR : (if approve_checks db o e ∧ (o.who = o.to_ → e.to_approved = false) then
      if o.who = o.agent → e.agent_approved = false then
        if (approve_e2 o e).to_approved = true ∧ (approve_e2 o e).agent_approved = true then
          match (approve_db2 db o e).find_account o.agent with
          | some a => Except.ok (approve_paid db o e a)
          | none => Except.error (approve_db2 db o e)
        else Except.ok (approve_db2 db o e)
      else Except.error (approve_db1 db o e)
    else Except.error db) = R
  by_cases hwt : o.who = o.to_ <;> by_cases hwa : o.who = o.agent
  · have b1 : (o.who == o.to_) = true := by simpa using hwt
    have b2 : (o.who == o.agent) = true := by simpa using hwa
    have e1 : approve_e1 o e = { e with to_approved := true } := if_pos hwt
    have d1 : approve_db1 db o e = db.modify e (fun esc => { esc with to_approved := true }) :=
      if_pos hwt
    have e2 : approve_e2 o e = { e with to_approved := true, agent_approved := true } := by
      rw [approve_e2, if_pos hwa, e1]
    have d2 : approve_db2 db o e =
        (db.modify e (fun esc => { esc with to_approved := true })).modify
          { e with to_approved := true } (fun esc => { esc with agent_approved := true }) := by
      rw [approve_db2, if_pos hwa, e1, d1]
    simp only [b1, b2, if_true]
    rcases Bool.eq_false_or_eq_true e.to_approved with hta | hta
    · simp only [hta, Bool.not_true, assert_false_bind]
      rw [← hR, if_neg (fun hc => by simpa [hta] using hc.2 hwt)]
    have c1 : approve_checks db o e ∧ (o.who = o.to_ → e.to_approved = false) :=
      ⟨hc0, fun _ => hta⟩
    rcases Bool.eq_false_or_eq_true e.agent_approved with haa | haa
    · simp only [hta, haa, Bool.not_true, Bool.not_false, assert_false_bind, assert_true_bind]
      rw [← hR, if_pos c1, if_neg (fun hc => by simpa [haa] using hc hwa), d1]
    have c2 : o.who = o.agent → e.agent_approved = false := fun _ => haa
    simp only [hta, haa, Bool.not_false, assert_true_bind]
    refine (fin ((db.modify e (fun esc => { esc with to_approved := true })).modify
          { e with to_approved := true } (fun esc => { esc with agent_approved := true }))
          { e with to_approved := true, agent_approved := true }).trans ?_
    rw [← hR, if_pos c1, if_pos c2]
    simp only [approve_paid, e2, d2]
  · have b1 : (o.who == o.to_) = true := by simpa using hwt
    have b2 : (o.who == o.agent) = false := by simpa using hwa
    have e1 : approve_e1 o e = { e with to_approved := true } := if_pos hwt
    have d1 : approve_db1 db o e = db.modify e (fun esc => { esc with to_approved := true }) :=
      if_pos hwt
    have e2 : approve_e2 o e = { e with to_approved := true } := by
      rw [approve_e2, if_neg hwa, e1]
    have d2 : approve_db2 db o e = db.modify e (fun esc => { esc with to_approved := true }) := by
      rw [approve_db2, if_neg hwa, d1]
    simp only [b1, b2, if_true, if_false, Bool.false_eq_true]
    rcases Bool.eq_false_or_eq_true e.to_approved with hta | hta
    · simp only [hta, Bool.not_true, assert_false_bind]
      rw [← hR, if_neg (fun hc => by simpa [hta] using hc.2 hwt)]
    have c1 : approve_checks db o e ∧ (o.who = o.to_ → e.to_approved = false) :=
      ⟨hc0, fun _ => hta⟩
    have c2 : o.who = o.agent → e.agent_approved = false := fun hc => absurd hc hwa
    simp only [hta, Bool.not_false, assert_true_bind]
    refine (fin (db.modify e (fun esc => { esc with to_approved := true }))
          { e with to_approved := true }).trans ?_
    rw [← hR, if_pos c1, if_pos c2]
    simp only [approve_paid, e2, d2]
  · have b1 : (o.who == o.to_) = false := by simpa using hwt
    have b2 : (o.who == o.agent) = true := by simpa using hwa
    have e1 : approve_e1 o e = e := if_neg hwt
    have d1 : approve_db1 db o e = db := if_neg hwt
    have e2 : approve_e2 o e = { e with agent_approved := true } := by
      rw [approve_e2, if_pos hwa, e1]
    have d2 : approve_db2 db o e = db.modify e (fun esc => { esc with agent_approved := true }) := by
      rw [approve_db2, if_pos hwa, e1, d1]
    have c1 : approve_checks db o e ∧ (o.who = o.to_ → e.to_approved = false) :=
      ⟨hc0, fun hc => absurd hc hwt⟩
    simp only [b1, b2, if_true, if_false, Bool.false_eq_true]
    rcases Bool.eq_false_or_eq_true e.agent_approved with haa | haa
    · simp only [haa, Bool.not_true, assert_false_bind]
      rw [← hR, if_pos c1, if_neg (fun hc => by simpa [haa] using hc hwa), d1]
    have c2 : o.who = o.agent → e.agent_approved = false := fun _ => haa
    simp only [haa, Bool.not_false, assert_true_bind]
    refine (fin (db.modify e (fun esc => { esc with agent_approved := true }))
          { e with agent_approved := true }).trans ?_
    rw [← hR, if_pos c1, if_pos c2]
    simp only [approve_paid, e2, d2]
  · have b1 : (o.who == o.to_) = false := by simpa using hwt
    have b2 : (o.who == o.agent) = false := by simpa using hwa
    have e1 : approve_e1 o e = e := if_neg hwt
    have d1 : approve_db1 db o e = db := if_neg hwt
    have e2 : approve_e2 o e = e := by
      rw [approve_e2, if_neg hwa, e1]
    have d2 : approve_db2 db o e = db := by
      rw [approve_db2, if_neg hwa, d1]
    have c1 : approve_checks db o e ∧ (o.who = o.to_ → e.to_approved = false) :=
      ⟨hc0, fun hc => absurd hc hwt⟩
    have c2 : o.who = o.agent → e.agent_approved = false := fun hc => absurd hc hwa
    simp only [b1, b2, if_true, if_false, Bool.false_eq_true]
    refine (fin db e).trans ?_
    rw [← hR, if_pos c1, if_pos c2]
    simp only [approve_paid, e2, d2]

end steemit.chain

namespace steemit.chain

open asset_symbol_type

/-! ## Lemmas on balances and on the escrow store -/

theorem holding_adjust (a : account_object) (delta : asset) (s : asset_symbol_type) :
    (a.adjust delta).holding s = a.holding s + delta.of_symbol s := by
  unfold account_object.adjust asset.of_symbol
  cases hd : delta.symbol <;> cases s <;> simp [account_object.holding]

theorem name_adjust (a : account_object) (delta : asset) : (a.adjust delta).name = a.name := by
  unfold account_object.adjust
  cases delta.symbol <;> rfl

theorem find_account_adjust_same (db : database) (a : account_object) (delta : asset) :
    (db.adjust_balance a delta).find_account a.name =
      (db.find_account a.name).map (fun x => x.adjust delta) := by
  unfold database.find_account database.adjust_balance
  exact find_modify_first _ _ (fun x => by simp [name_adjust]) _

theorem find_account_adjust_other (db : database) (a : account_object) (delta : asset)
    (n : account_name_type) (h : n ≠ a.name) :
    (db.adjust_balance a delta).find_account n = db.find_account n := by
  unfold database.find_account database.adjust_balance
  refine find_modify_first_other _ _ _ (fun x => by simp [name_adjust]) (fun x hx => ?_) _
  simp only [beq_iff_eq] at hx
  simp only [beq_eq_false_iff_ne, ne_eq, hx]
  exact fun hc => h hc.symm

theorem balance_of_adjust_same (db : database) (a : account_object) (delta : asset)
    (s : asset_symbol_type) :
    (db.adjust_balance a delta).balance_of a.name s =
      (db.balance_of a.name s).map (fun x => x + delta.of_symbol s) := by
  unfold database.balance_of
  rw [find_account_adjust_same]
  cases db.find_account a.name <;> simp [holding_adjust]

theorem balance_of_adjust_other (db : database) (a : account_object) (delta : asset)
    (n : account_name_type) (s : asset_symbol_type) (h : n ≠ a.name) :
    (db.adjust_balance a delta).balance_of n s = db.balance_of n s := by
  unfold database.balance_of
  rw [find_account_adjust_other db a delta n h]

theorem total_adjust (db : database) (a x : account_object) (delta : asset)
    (s : asset_symbol_type) (h : db.find_account a.name = some x) :
    (db.adjust_balance a delta).total s = db.total s + delta.of_symbol s := by
  unfold database.total database.adjust_balance
  simp only
  rw [sum_modify_first _ _ _ _ x h, holding_adjust]
  ring

theorem total_modify (db : database) (e x : escrow_object) (f : escrow_object → escrow_object)
    (s : asset_symbol_type) (h : db.find_escrow e.from_ e.escrow_id = some x) :
    (db.modify e f).total s = db.total s - x.held s + (f x).held s := by
  unfold database.total database.modify
  simp only
  rw [sum_modify_first _ _ _ _ x h]
  ring

theorem total_remove (db : database) (e x : escrow_object) (s : asset_symbol_type)
    (h : db.find_escrow e.from_ e.escrow_id = some x) :
    (db.remove e).total s = db.total s - x.held s := by
  unfold database.total database.remove
  simp only
  rw [sum_eraseP _ _ _ x h]
  ring

theorem find_escrow_modify_same (db : database) (e : escrow_object)
    (f : escrow_object → escrow_object)
    (hf : ∀ x, (f x).from_ = x.from_ ∧ (f x).escrow_id = x.escrow_id) :
    (db.modify e f).find_escrow e.from_ e.escrow_id =
      (db.find_escrow e.from_ e.escrow_id).map f := by
  unfold database.find_escrow database.modify
  exact find_modify_first _ _ (fun x => by simp [(hf x).1, (hf x).2]) _

end steemit.chain

namespace steemit.chain

open asset_symbol_type

/-! ## Inversion of the closed forms -/

theorem release_ok_inv {db db1 : database} {o : escrow_release_operation}
    (h : escrow_release_evaluator.do_apply db o = .ok db1) :
    ∃ f r e, db.find_account o.from_ = some f ∧ db.find_account o.receiver = some r ∧
      db.find_escrow o.from_ o.escrow_id = some e ∧ release_checks db o e ∧
      db1 = release_result db o r e := by
  rw [release_eq] at h
  cases hf : db.find_account o.from_ <;> simp only [hf, reduceCtorEq] at h
  cases hr : db.find_account o.receiver <;> simp only [hr, reduceCtorEq] at h
  cases he : db.find_escrow o.from_ o.escrow_id <;> simp only [he, reduceCtorEq] at h
  rename_i f r e
  by_cases hc : release_checks db o e
  · rw [if_pos hc] at h
    exact ⟨f, r, e, rfl, rfl, rfl, hc, (Except.ok.inj h).symm⟩
  · rw [if_neg hc] at h
    cases h

theorem release_error_inv {db db1 : database} {o : escrow_release_operation}
    (h : escrow_release_evaluator.do_apply db o = .error db1) : db1 = db := by
  rw [release_eq] at h
  split at h
  · split at h
    · cases h
    · exact (Except.error.inj h).symm
  · exact (Except.error.inj h).symm

theorem dispute_ok_inv {db db1 : database} {o : escrow_dispute_operation}
    (h : escrow_dispute_evaluator.do_apply db o = .ok db1) :
    ∃ f e, db.find_account o.from_ = some f ∧
      db.find_escrow o.from_ o.escrow_id = some e ∧ dispute_checks db o e ∧
      db1 = db.modify e (fun esc => { esc with disputed := true }) := by
  rw [dispute_eq] at h
  cases hf : db.find_account o.from_ <;> simp only [hf, reduceCtorEq] at h
  cases he : db.find_escrow o.from_ o.escrow_id <;> simp only [he, reduceCtorEq] at h
  rename_i f e
  by_cases hc : dispute_checks db o e
  · rw [if_pos hc] at h
    exact ⟨f, e, rfl, rfl, hc, (Except.ok.inj h).symm⟩
  · rw [if_neg hc] at h
    cases h

theorem transfer_ok_inv {db db1 : database} {o : escrow_transfer_operation}
    (h : escrow_transfer_evaluator.do_apply db o = .ok db1) :
    ∃ f t a spent, db.find_account o.from_ = some f ∧ db.find_account o.to_ = some t ∧
      db.find_account o.agent = some a ∧ transfer_spent o = some spent ∧
      transfer_checks db o f spent ∧ db.find_escrow o.from_ o.escrow_id = none ∧
      db1 = { (db.adjust_balance f spent.1.neg).adjust_balance f spent.2.neg with
              escrows := db.escrows ++ [transfer_record o] } := by
  rw [transfer_eq] at h
  cases hf : db.find_account o.from_ <;> simp only [hf, reduceCtorEq] at h
  cases ht : db.find_account o.to_ <;> simp only [ht, reduceCtorEq] at h
  cases ha : db.find_account o.agent <;> simp only [ha, reduceCtorEq] at h
  cases hs : transfer_spent o <;> simp only [hs, reduceCtorEq] at h
  rename_i f t a spent
  by_cases hc : transfer_checks db o f spent
  · rw [if_pos hc] at h
    unfold database.create at h
    cases hx : db.find_escrow o.from_ o.escrow_id
    · have hx2 : ((db.adjust_balance f spent.1.neg).adjust_balance f spent.2.neg).find_escrow
          (transfer_record o).from_ (transfer_record o).escrow_id = none := hx
      rw [hx2] at h
      exact ⟨f, t, a, spent, rfl, rfl, rfl, rfl, hc, rfl, (Except.ok.inj h).symm⟩
    · have hx2 : ((db.adjust_balance f spent.1.neg).adjust_balance f spent.2.neg).find_escrow
          (transfer_record o).from_ (transfer_record o).escrow_id = some _ := hx
      rw [hx2] at h
      cases h
  · rw [if_neg hc] at h
    cases h

theorem approve_reject_ok_inv {db db1 : database} {o : escrow_approve_operation}
    (hr : o.approve = false) (h : escrow_approve_evaluator.do_apply db o = .ok db1) :
    ∃ e f, db.find_escrow o.from_ o.escrow_id = some e ∧ db.find_account o.from_ = some f ∧
      approve_checks db o e ∧ (o.who = o.to_ → e.to_approved = false) ∧
      (o.who = o.agent → e.agent_approved = false) ∧ db1 = reject_result db f e := by
  rw [approve_reject_eq db o hr] at h
  cases he : db.find_escrow o.from_ o.escrow_id <;> simp only [he, reduceCtorEq] at h
  rename_i e
  split at h
  · rename_i hc
    cases hf : db.find_account o.from_ <;> simp only [hf, reduceCtorEq] at h
    exact ⟨e, _, rfl, rfl, hc.1, hc.2.1, hc.2.2, (Except.ok.inj h).symm⟩
  · cases h

theorem approve_accept_ok_inv {db db1 : database} {o : escrow_approve_operation}
    (hr : o.approve = true) (h : escrow_approve_evaluator.do_apply db o = .ok db1) :
    ∃ e, db.find_escrow o.from_ o.escrow_id = some e ∧
      approve_checks db o e ∧ (o.who = o.to_ → e.to_approved = false) ∧
      (o.who = o.agent → e.agent_approved = false) ∧
      (((approve_e2 o e).to_approved = true ∧ (approve_e2 o e).agent_approved = true ∧
          ∃ a, (approve_db2 db o e).find_account o.agent = some a ∧
            db1 = approve_paid db o e a) ∨
        (¬ ((approve_e2 o e).to_approved = true ∧ (approve_e2 o e).agent_approved = true) ∧
          db1 = approve_db2 db o e)) := by
  rw [approve_accept_eq db o hr] at h
  cases he : db.find_escrow o.from_ o.escrow_id <;> simp only [he, reduceCtorEq] at h
  rename_i e
  split at h
  · rename_i hc
    split at h
    · rename_i hc2
      split at h
      · rename_i hc3
        cases hf : (approve_db2 db o e).find_account o.agent <;>
          simp only [hf, reduceCtorEq] at h
        exact ⟨e, rfl, hc.1, hc.2, hc2, Or.inl ⟨hc3.1, hc3.2, _, hf, (Except.ok.inj h).symm⟩⟩
      · rename_i hc3
        exact ⟨e, rfl, hc.1, hc.2, hc2, Or.inr ⟨hc3, (Except.ok.inj h).symm⟩⟩
    · cases h
  · cases h

end steemit.chain

namespace steemit.chain

open asset_symbol_type

/-! ## Conservation -/

theorem find_account_adjust_some {db : database} {a x : account_object} (delta : asset)
    (h : db.find_account a.name = some x) :
    (db.adjust_balance a delta).find_account a.name = some (x.adjust delta) := by
  rw [find_account_adjust_same, h]; rfl

theorem of_symbol_neg (a : asset) (s : asset_symbol_type) :
    a.neg.of_symbol s = - a.of_symbol s := by
  unfold asset.of_symbol asset.neg
  split <;> simp

theorem asset_add_some {a b c : asset} (h : a.add b = some c) :
    a.symbol = b.symbol ∧ c = { a with amount := a.amount + b.amount } := by
  unfold asset.add at h
  split at h
  · exact ⟨by assumption, (Option.some.inj h).symm⟩
  · cases h

theorem transfer_spent_total {o : escrow_transfer_operation} {spent : asset × asset}
    (h : transfer_spent o = some spent) (s : asset_symbol_type) :
    spent.1.of_symbol s + spent.2.of_symbol s = (transfer_record o).held s := by
  unfold transfer_spent at h
  unfold escrow_object.held transfer_record
  split at h
  · cases ha : o.steem_amount.add o.fee <;> simp only [ha, Option.map_some', Option.map_none',
      reduceCtorEq, Option.some.injEq] at h
    obtain ⟨hs, hc⟩ := asset_add_some ha
    subst h
    subst hc
    simp only [asset.of_symbol, ← hs]
    split_ifs <;> ring
  · cases ha : o.sbd_amount.add o.fee <;> simp only [ha, Option.map_some', Option.map_none',
      reduceCtorEq, Option.some.injEq] at h
    obtain ⟨hs, hc⟩ := asset_add_some ha
    subst h
    subst hc
    simp only [asset.of_symbol, ← hs]
    split_ifs <;> ring

theorem transfer_total {db db1 : database} {o : escrow_transfer_operation}
    (h : escrow_transfer_evaluator.do_apply db o = .ok db1) (s : asset_symbol_type) :
    db1.total s = db.total s := by
  obtain ⟨f, t, a, spent, hf, -, -, hs, -, -, rfl⟩ := transfer_ok_inv h
  have hfn : db.find_account f.name = some f := by rw [find_account_name hf]; exact hf
  have h1 := total_adjust db f f spent.1.neg s hfn
  have h2 := total_adjust (db.adjust_balance f spent.1.neg) f _ spent.2.neg s
    (find_account_adjust_some spent.1.neg hfn)
  have h3 := transfer_spent_total hs s
  simp only [database.total, List.map_append, List.sum_append, List.map_cons, List.map_nil,
    List.sum_cons, List.sum_nil] at h1 h2 ⊢
  have e1 : ((db.adjust_balance f spent.1.neg).adjust_balance f spent.2.neg).escrows =
      db.escrows := rfl
  simp only [e1, of_symbol_neg] at h1 h2 ⊢
  have e2 : (db.adjust_balance f spent.1.neg).escrows = db.escrows := rfl
  rw [e2] at h1 h2
  linarith

theorem total_modify_same_held (db : database) (e : escrow_object)
    (f : escrow_object → escrow_object) (s : asset_symbol_type)
    (hf : ∀ x, (f x).held s = x.held s) : (db.modify e f).total s = db.total s := by
  cases h : db.find_escrow e.from_ e.escrow_id with
  | none =>
    have : db.modify e f = db := by
      unfold database.modify
      rw [modify_first_of_find_none _ _ _ h]
    rw [this]
  | some x =>
    rw [total_modify db e x f s h, hf x]
    ring

theorem approve_e1_key (o : escrow_approve_operation) (e : escrow_object) :
    (approve_e1 o e).from_ = e.from_ ∧ (approve_e1 o e).escrow_id = e.escrow_id := by
  unfold approve_e1; split <;> exact ⟨rfl, rfl⟩

theorem approve_e2_key (o : escrow_approve_operation) (e : escrow_object) :
    (approve_e2 o e).from_ = e.from_ ∧ (approve_e2 o e).escrow_id = e.escrow_id := by
  unfold approve_e2; split
  · exact approve_e1_key o e
  · exact approve_e1_key o e

theorem approve_e2_fee (o : escrow_approve_operation) (e : escrow_object) :
    (approve_e2 o e).pending_fee = e.pending_fee ∧
    (approve_e2 o e).steem_balance = e.steem_balance ∧
    (approve_e2 o e).sbd_balance = e.sbd_balance := by
  unfold approve_e2 approve_e1; split <;> split <;> exact ⟨rfl, rfl, rfl⟩

theorem approve_db1_find {db : database} {o : escrow_approve_operation} {e : escrow_object}
    (he : db.find_escrow e.from_ e.escrow_id = some e) :
    (approve_db1 db o e).find_escrow e.from_ e.escrow_id = some (approve_e1 o e) := by
  unfold approve_db1 approve_e1
  split
  · rw [find_escrow_modify_same db e (fun esc => { esc with to_approved := true })
      (fun x => ⟨rfl, rfl⟩), he]; rfl
  · exact he

theorem approve_db2_find {db : database} {o : escrow_approve_operation} {e : escrow_object}
    (he : db.find_escrow e.from_ e.escrow_id = some e) :
    (approve_db2 db o e).find_escrow e.from_ e.escrow_id = some (approve_e2 o e) := by
  have h1 := approve_db1_find (o := o) he
  have k := approve_e1_key o e
  unfold approve_db2 approve_e2
  split
  · rw [← k.1, ← k.2] at h1 ⊢
    rw [find_escrow_modify_same (approve_db1 db o e) (approve_e1 o e)
      (fun esc => { esc with agent_approved := true }) (fun x => ⟨rfl, rfl⟩), h1]; rfl
  · exact h1

theorem approve_db2_accounts (db : database) (o : escrow_approve_operation) (e : escrow_object) :
    (approve_db2 db o e).accounts = db.accounts ∧
    (approve_db2 db o e).head_block_time = db.head_block_time := by
  unfold approve_db2 approve_db1
  split <;> split <;> exact ⟨rfl, rfl⟩

theorem approve_db2_total (db : database) (o : escrow_approve_operation) (e : escrow_object)
    (s : asset_symbol_type) : (approve_db2 db o e).total s = db.total s := by
  have h1 : (approve_db1 db o e).total s = db.total s := by
    unfold approve_db1
    split
    · exact total_modify_same_held db e (fun esc => { esc with to_approved := true }) s
        (fun x => rfl)
    · rfl
  unfold approve_db2
  split
  · rw [total_modify_same_held (approve_db1 db o e) (approve_e1 o e)
      (fun esc => { esc with agent_approved := true }) s (fun x => rfl), h1]
  · exact h1

theorem self_key {db : database} {n : account_name_type} {i : Nat} {e : escrow_object}
    (h : db.find_escrow n i = some e) : db.find_escrow e.from_ e.escrow_id = some e := by
  obtain ⟨h1, h2⟩ := find_escrow_key h
  rw [h1, h2]; exact h

theorem find_account_self {db : database} {n : account_name_type} {a : account_object}
    (h : db.find_account n = some a) : db.find_account a.name = some a := by
  rw [find_account_name h]; exact h

theorem approve_total {db db1 : database} {o : escrow_approve_operation}
    (h : escrow_approve_evaluator.do_apply db o = .ok db1) (s : asset_symbol_type) :
    db1.total s = db.total s := by
  cases hr : o.approve
  · obtain ⟨e, f, he, hf, -, -, -, rfl⟩ := approve_reject_ok_inv hr h
    have hfn := find_account_self hf
    have hek := self_key he
    have hek3 : (((db.adjust_balance f e.steem_balance).adjust_balance f
        e.sbd_balance).adjust_balance f e.pending_fee).find_escrow e.from_ e.escrow_id = some e :=
      hek
    unfold reject_result
    rw [total_remove _ e e s hek3,
      total_adjust _ f _ e.pending_fee s
        (find_account_adjust_some _ (find_account_adjust_some _ hfn)),
      total_adjust _ f _ e.sbd_balance s (find_account_adjust_some _ hfn),
      total_adjust _ f _ e.steem_balance s hfn]
    unfold escrow_object.held
    ring
  · obtain ⟨e, he, -, -, -, hcase⟩ := approve_accept_ok_inv hr h
    have hek := self_key he
    rcases hcase with ⟨-, -, a, ha, rfl⟩ | ⟨-, rfl⟩
    · have han := find_account_self ha
      have k := approve_e2_key o e
      have hfind : ((approve_db2 db o e).adjust_balance a (approve_e2 o e).pending_fee).find_escrow
          (approve_e2 o e).from_ (approve_e2 o e).escrow_id = some (approve_e2 o e) := by
        rw [k.1, k.2]
        exact approve_db2_find hek
      unfold approve_paid
      rw [total_modify _ _ _ _ s hfind, total_adjust _ a _ _ s han, approve_db2_total]
      unfold escrow_object.held
      simp only [asset.of_symbol]
      split_ifs <;> ring
    · exact approve_db2_total db o e s

theorem dispute_total {db db1 : database} {o : escrow_dispute_operation}
    (h : escrow_dispute_evaluator.do_apply db o = .ok db1) (s : asset_symbol_type) :
    db1.total s = db.total s := by
  obtain ⟨f, e, -, -, -, rfl⟩ := dispute_ok_inv h
  exact total_modify_same_held db e (fun esc => { esc with disputed := true }) s (fun x => rfl)

theorem mem_of_find_escrow {db : database} {n : account_name_type} {i : Nat} {e : escrow_object}
    (h : db.find_escrow n i = some e) : e ∈ db.escrows :=
  List.mem_of_find?_eq_some h

theorem release_total {db db1 : database} {o : escrow_release_operation}
    (hinv : db.fee_settled)
    (h : escrow_release_evaluator.do_apply db o = .ok db1) (s : asset_symbol_type) :
    db1.total s = db.total s := by
  obtain ⟨f, r, e, -, hr, he, hc, rfl⟩ := release_ok_inv h
  have hrn := find_account_self hr
  have hek := self_key he
  obtain ⟨h1, h2, -, -, -, happ, -⟩ := hc
  have hfee : e.pending_fee.amount = 0 := hinv e (mem_of_find_escrow he) happ.1 happ.2
  have s1 := (asset_ge_true h1).1
  have s2 := (asset_ge_true h2).1
  have hek2 : ((db.adjust_balance r o.steem_amount).adjust_balance r o.sbd_amount).find_escrow
      e.from_ e.escrow_id = some e := hek
  have t3 := total_modify _ e e (fun esc => { esc with
      steem_balance := { e.steem_balance with amount := e.steem_balance.amount - o.steem_amount.amount },
      sbd_balance := { e.sbd_balance with amount := e.sbd_balance.amount - o.sbd_amount.amount } })
    s hek2
  rw [total_adjust _ r _ o.sbd_amount s (find_account_adjust_some _ hrn),
    total_adjust _ r _ o.steem_amount s hrn] at t3
  unfold release_result
  simp only
  split
  · rename_i hz
    simp only [Bool.and_eq_true, beq_iff_eq] at hz
    have hfind := find_escrow_modify_same
      ((db.adjust_balance r o.steem_amount).adjust_balance r o.sbd_amount) e
      (fun esc => { esc with
        steem_balance := { e.steem_balance with amount := e.steem_balance.amount - o.steem_amount.amount },
        sbd_balance := { e.sbd_balance with amount := e.sbd_balance.amount - o.sbd_amount.amount } })
      (fun x => ⟨rfl, rfl⟩)
    rw [hek2] at hfind
    rw [total_remove _ e _ s hfind, t3]
    simp only [escrow_object.held, asset.of_symbol, Option.map_some', hz.1, hz.2, hfee, ← s1, ← s2]
    have a1 : o.steem_amount.amount = e.steem_balance.amount := by linarith [hz.1]
    have a2 : o.sbd_amount.amount = e.sbd_balance.amount := by linarith [hz.2]
    rw [a1, a2]
    split_ifs <;> ring
  · rw [t3]
    simp only [escrow_object.held, asset.of_symbol, ← s1, ← s2]
    split_ifs <;> ring

/-- The fee invariant holds of an empty escrow store. -/
theorem fee_settled_empty (db : database) (h : db.escrows = []) : db.fee_settled := by
  intro e he
  rw [h] at he
  cases he

end steemit.chain

namespace steemit.chain

open asset_symbol_type

/-! ## The fee invariant is kept by every operation -/

section lists

variable {α : Type}

theorem modify_first_id (p : α → Bool) (l : List α) : modify_first p (fun x => x) l = l := by
  induction l with
  | nil => rfl
  | cons x xs ih => simp [modify_first, ih]

theorem modify_first_twice (p : α → Bool) (f g : α → α) (hpf : ∀ x, p (f x) = p x)
    (l : List α) : modify_first p g (modify_first p f l) = modify_first p (fun x => g (f x)) l := by
  induction l with
  | nil => rfl
  | cons x xs ih =>
    cases hp : p x
    · simp [modify_first, hp, ih]
    · simp [modify_first, hp, hpf]

end lists

theorem approve_db2_escrows (db : database) (o : escrow_approve_operation) (e : escrow_object) :
    (approve_db2 db o e).escrows =
      modify_first (fun x => x.from_ == e.from_ && x.escrow_id == e.escrow_id) (approve_e2 o)
        db.escrows := by
  have k := approve_e1_key o e
  have h1 : (approve_db1 db o e).escrows =
      modify_first (fun x => x.from_ == e.from_ && x.escrow_id == e.escrow_id) (approve_e1 o)
        db.escrows := by
    unfold approve_db1
    by_cases hw : o.who = o.to_
    · rw [if_pos hw]
      have : approve_e1 o = fun esc => { esc with to_approved := true } := by
        funext x; exact if_pos hw
      rw [this]; rfl
    · rw [if_neg hw]
      have : approve_e1 o = fun esc => esc := by
        funext x; exact if_neg hw
      rw [this, modify_first_id]
  unfold approve_db2
  by_cases hw : o.who = o.agent
  · rw [if_pos hw]
    have : approve_e2 o = fun x => { approve_e1 o x with agent_approved := true } := by
      funext x; exact if_pos hw
    rw [this]
    unfold database.modify
    simp only [h1, k.1, k.2]
    exact modify_first_twice _ _ _
      (fun x => by have kx := approve_e1_key o x; simp only [kx.1, kx.2]) _
  · rw [if_neg hw]
    have : approve_e2 o = approve_e1 o := by
      funext x; exact if_neg hw
    rw [this, h1]

theorem approve_paid_escrows (db : database) (o : escrow_approve_operation) (e : escrow_object)
    (a : account_object) :
    (approve_paid db o e a).escrows =
      modify_first (fun x => x.from_ == e.from_ && x.escrow_id == e.escrow_id)
        (fun x => { approve_e2 o x with
          pending_fee := { (approve_e2 o x).pending_fee with amount := 0 } })
        db.escrows := by
  have k := approve_e2_key o e
  unfold approve_paid database.modify database.adjust_balance
  simp only [approve_db2_escrows, k.1, k.2]
  exact modify_first_twice _ _ _
    (fun x => by have kx := approve_e2_key o x; simp only [kx.1, kx.2]) _

theorem approve_e2_flags (o : escrow_approve_operation) (x : escrow_object) :
    (approve_e2 o x).to_approved = (decide (o.who = o.to_) || x.to_approved) ∧
    (approve_e2 o x).agent_approved = (decide (o.who = o.agent) || x.agent_approved) := by
  unfold approve_e2 approve_e1
  by_cases h1 : o.who = o.to_ <;> by_cases h2 : o.who = o.agent
  · rw [if_pos h2, if_pos h1, decide_eq_true h1, decide_eq_true h2]; exact ⟨rfl, rfl⟩
  · rw [if_neg h2, if_pos h1, decide_eq_true h1, decide_eq_false h2]; exact ⟨rfl, rfl⟩
  · rw [if_pos h2, if_neg h1, decide_eq_false h1, decide_eq_true h2]; exact ⟨rfl, rfl⟩
  · rw [if_neg h2, if_neg h1, decide_eq_false h1, decide_eq_false h2]; exact ⟨rfl, rfl⟩

/-- Every operation that completes keeps the fee invariant. -/
theorem fee_settled_step {db db1 : database} {op : operation} (hinv : db.fee_settled)
    (h : apply_operation db op = .ok db1) : db1.fee_settled := by
  cases op with
  | escrow_transfer o =>
    obtain ⟨f, t, a, spent, -, -, -, -, -, -, rfl⟩ := transfer_ok_inv h
    intro y hy
    simp only [List.mem_append, List.mem_singleton] at hy
    rcases hy with hy | rfl
    · exact hinv y hy
    · intro hc; cases hc
  | escrow_approve o =>
    have h : escrow_approve_evaluator.do_apply db o = .ok db1 := h
    cases hr : o.approve
    · obtain ⟨e, f, -, -, -, -, -, rfl⟩ := approve_reject_ok_inv hr h
      intro y hy
      exact hinv y (List.mem_of_mem_eraseP hy)
    · obtain ⟨e, he, -, -, -, hcase⟩ := approve_accept_ok_inv hr h
      have hek := self_key he
      rcases hcase with ⟨-, -, a, -, rfl⟩ | ⟨hn, rfl⟩
      · intro y hy
        rw [approve_paid_escrows] at hy
        rcases mem_modify_first _ _ _ _ hy with hy | ⟨x, -, rfl⟩
        · exact hinv y hy
        · intro _ _; rfl
      · intro y hy
        rw [approve_db2_escrows] at hy
        rcases mem_modify_first _ _ _ _ hy with hy | ⟨x, hx, rfl⟩
        · exact hinv y hy
        · have hxe : x = e := Option.some.inj (hx.symm.trans hek)
          subst hxe
          intro h1 h2
          exact absurd ⟨h1, h2⟩ hn
  | escrow_dispute o =>
    obtain ⟨f, e, -, -, -, rfl⟩ := dispute_ok_inv h
    intro y hy
    rcases mem_modify_first _ _ _ _ hy with hy | ⟨x, hx, rfl⟩
    · exact hinv y hy
    · exact hinv x (List.mem_of_find?_eq_some hx)
  | escrow_release o =>
    obtain ⟨f, r, e, -, -, -, -, rfl⟩ := release_ok_inv h
    have hmod : ∀ y ∈ (((db.adjust_balance r o.steem_amount).adjust_balance r o.sbd_amount).modify e
        (fun esc => { esc with
          steem_balance := { e.steem_balance with
            amount := e.steem_balance.amount - o.steem_amount.amount },
          sbd_balance := { e.sbd_balance with
            amount := e.sbd_balance.amount - o.sbd_amount.amount } })).escrows,
        y.to_approved = true → y.agent_approved = true → y.pending_fee.amount = 0 := by
      intro y hy
      rcases mem_modify_first _ _ _ _ hy with hy | ⟨x, hx, rfl⟩
      · exact hinv y hy
      · exact hinv x (List.mem_of_find?_eq_some hx)
    unfold release_result
    simp only
    split
    · intro y hy
      exact hmod y (List.mem_of_mem_eraseP hy)
    · exact hmod

/-! ## C1: conservation of value -/

/-- C1.  Conservation of value: in a database that meets the data-model invariant of the
escrow store (a record both parties approved holds no pending fee, which every store reached
from an empty one does), every Create, Approve, Dispute or Release that completes leaves the
total of each currency, over all account balances and over the balances and pending fees of
all stored records, as it was. -/
theorem conservation_of_value (db db1 : database) (op : operation) (s : asset_symbol_type)
    (hinv : db.fee_settled) (h : apply_operation db op = .ok db1) :
    db1.total s = db.total s := by
  cases op with
  | escrow_transfer o => exact transfer_total h s
  | escrow_approve o => exact approve_total h s
  | escrow_dispute o => exact dispute_total h s
  | escrow_release o => exact release_total hinv h s

end steemit.chain

namespace steemit.chain

open asset_symbol_type

/-- Witness of C1: the release that settles the scenario's ratified escrow keeps the total of
the first currency. -/
theorem conservation_of_value_witness :
    scenario_ratified.fee_settled ∧
    apply_operation scenario_ratified (.escrow_release (scenario_release "alice" "bob")) =
      .ok scenario_settled ∧
    scenario_settled.total STEEM_SYMBOL_NAME = scenario_ratified.total STEEM_SYMBOL_NAME :=
  ⟨by decide, by decide,
    conservation_of_value scenario_ratified scenario_settled
      (.escrow_release (scenario_release "alice" "bob")) STEEM_SYMBOL_NAME (by decide) (by decide)⟩

end steemit.chain

namespace steemit.chain

open asset_symbol_type

/-! ## C2 to C5: who may release, to whom and when -/

theorem asset_ge_of_le {a b : asset} (h : b.symbol = a.symbol ∧ b.amount ≤ a.amount) :
    a.ge b = some true := by
  simp [asset.ge, h.1, h.2]

theorem release_ok_of {db : database} {o : escrow_release_operation} {f r : account_object}
    {e : escrow_object} (hf : db.find_account o.from_ = some f)
    (hr : db.find_account o.receiver = some r)
    (he : db.find_escrow o.from_ o.escrow_id = some e) (hc : release_checks db o e) :
    escrow_release_evaluator.do_apply db o = .ok (release_result db o r e) := by
  rw [release_eq, hf, hr, he]
  exact if_pos hc

theorem release_error_of {db : database} {o : escrow_release_operation} {e : escrow_object}
    (he : db.find_escrow o.from_ o.escrow_id = some e) (hc : ¬ release_checks db o e) :
    escrow_release_evaluator.do_apply db o = .error db := by
  rw [release_eq, he]
  cases db.find_account o.from_ <;> cases db.find_account o.receiver <;> simp only [if_neg hc]

/-- C2.  Release on a disputed record: at any clock time, when the `from` and receiver
accounts exist, the operation's `to` and `agent` are the record's, the receiver is the
record's `from` or `to`, both approval flags are set and each requested amount is of the
currency of the record's balance and does not exceed it, the Release completes if and only
if `who` is the record's agent; by anyone else it throws, with the database untouched. -/
theorem release_disputed_only_agent (db : database) (o : escrow_release_operation)
    (f r : account_object) (e : escrow_object)
    (he : db.find_escrow o.from_ o.escrow_id = some e) (hd : e.disputed = true)
    (hf : db.find_account o.from_ = some f) (hr : db.find_account o.receiver = some r)
    (hto : o.to_ = e.to_) (hag : o.agent = e.agent)
    (hrecv : o.receiver = e.from_ ∨ o.receiver = e.to_)
    (happ : e.to_approved = true ∧ e.agent_approved = true)
    (h1 : o.steem_amount.symbol = e.steem_balance.symbol ∧
      o.steem_amount.amount ≤ e.steem_balance.amount)
    (h2 : o.sbd_amount.symbol = e.sbd_balance.symbol ∧
      o.sbd_amount.amount ≤ e.sbd_balance.amount) :
    ((∃ db1, escrow_release_evaluator.do_apply db o = .ok db1) ↔ o.who = e.agent) ∧
    (o.who ≠ e.agent → escrow_release_evaluator.do_apply db o = .error db) := by
  have hauth : release_authorized db o e ↔ o.who = e.agent := by
    unfold release_authorized; rw [if_pos hd]
  have hchk : release_checks db o e ↔ o.who = e.agent :=
    ⟨fun hc => hauth.1 hc.2.2.2.2.2.2, fun hw =>
      ⟨asset_ge_of_le h1, asset_ge_of_le h2, hto.symm, hag.symm, hrecv, happ, hauth.2 hw⟩⟩
  have hfail : o.who ≠ e.agent → escrow_release_evaluator.do_apply db o = .error db :=
    fun hw => release_error_of he (fun hc => hw (hchk.1 hc))
  refine ⟨⟨fun hex => ?_, fun hw => ⟨_, release_ok_of hf hr he (hchk.2 hw)⟩⟩, hfail⟩
  obtain ⟨db1, hok⟩ := hex
  by_contra hw
  rw [hfail hw] at hok
  cases hok

/-- Witness of C2 (scenario D): on the disputed escrow a release by alice, the sender, is
refused. -/
theorem release_disputed_only_agent_witness :
    ((∃ db1, escrow_release_evaluator.do_apply scenario_disputed
        (scenario_release "alice" "bob") = .ok db1) ↔ "alice" = "carol") ∧
    ("alice" ≠ "carol" → escrow_release_evaluator.do_apply scenario_disputed
        (scenario_release "alice" "bob") = .error scenario_disputed) :=
  release_disputed_only_agent scenario_disputed (scenario_release "alice" "bob")
    ⟨"alice", 95, 50⟩ ⟨"bob", 0, 0⟩ { scenario_ratified_record with disputed := true }
    (by decide) (by decide) (by decide) (by decide) (by decide) (by decide) (by decide)
    (by decide) (by decide) (by decide)

/-- C3, as stated, fails.  Create takes an operation whose `to` is its `from`; on the record
it stores, ratified, undisputed and before its expiration, a Release by `from` to `from`
completes. -/
theorem release_to_self_counterexample :
    reachable scenario_self_ratified ∧
    scenario_self_ratified.find_escrow "alice" 1 =
      some { scenario_ratified_record with to_ := "alice" } ∧
    ({ scenario_ratified_record with to_ := "alice" } : escrow_object).disputed = false ∧
    scenario_self_ratified.head_block_time <
      ({ scenario_ratified_record with to_ := "alice" } : escrow_object).escrow_expiration ∧
    scenario_self_release.who =
      ({ scenario_ratified_record with to_ := "alice" } : escrow_object).from_ ∧
    scenario_self_release.receiver =
      ({ scenario_ratified_record with to_ := "alice" } : escrow_object).from_ ∧
    escrow_release_evaluator.do_apply scenario_self_ratified scenario_self_release =
      .ok { accounts := [⟨"alice", 195, 50⟩, ⟨"bob", 0, 0⟩, ⟨"carol", 5, 0⟩, ⟨"dave", 7, 7⟩]
            escrows := []
            head_block_time := 100 } :=
  ⟨reachable_by.step
      { scenario_created with escrows := [{ scenario_self_record with to_approved := true }] }
      scenario_self_ratified
      (.escrow_approve { scenario_approve "carol" true with to_ := "alice" })
      (reachable_by.step { scenario_created with escrows := [scenario_self_record] }
        { scenario_created with escrows := [{ scenario_self_record with to_approved := true }] }
        (.escrow_approve { scenario_approve "alice" true with to_ := "alice" })
        (reachable_by.step scenario_genesis
          { scenario_created with escrows := [scenario_self_record] }
          (.escrow_transfer scenario_self_create)
          (reachable_by.empty scenario_genesis rfl) trivial (by decide))
        trivial (by decide))
      trivial (by decide),
    by decide, by decide, by decide, by decide, by decide, by decide⟩

/-- C3, amended.  Release on an undisputed record before its expiration: a Release completes
only if `who` is the record's `from` and the receiver its `to`, or `who` is its `to` and the
receiver its `from`; every Release outside these two throws with the database untouched: so
does every Release by a `who` other than `from` and `to` (the agent included), and, on a
record whose `from` and `to` are different accounts, every Release by `from` to `from` and
by `to` to `to`. -/
theorem release_unexpired_only_to_counterparty (db : database) (o : escrow_release_operation)
    (e : escrow_object) (he : db.find_escrow o.from_ o.escrow_id = some e)
    (hd : e.disputed = false) (ht : db.head_block_time < e.escrow_expiration) :
    (∀ db1, escrow_release_evaluator.do_apply db o = .ok db1 →
      (o.who = e.from_ ∧ o.receiver = e.to_) ∨ (o.who = e.to_ ∧ o.receiver = e.from_)) ∧
    (¬ ((o.who = e.from_ ∧ o.receiver = e.to_) ∨ (o.who = e.to_ ∧ o.receiver = e.from_)) →
      escrow_release_evaluator.do_apply db o = .error db) ∧
    (o.who ≠ e.from_ → o.who ≠ e.to_ →
      escrow_release_evaluator.do_apply db o = .error db) ∧
    (e.from_ ≠ e.to_ → o.who = e.from_ → o.receiver = e.from_ →
      escrow_release_evaluator.do_apply db o = .error db) ∧
    (e.from_ ≠ e.to_ → o.who = e.to_ → o.receiver = e.to_ →
      escrow_release_evaluator.do_apply db o = .error db) := by
  have hauth : release_authorized db o e →
      (o.who = e.from_ ∧ o.receiver = e.to_) ∨ (o.who = e.to_ ∧ o.receiver = e.from_) := by
    intro ha
    unfold release_authorized at ha
    rw [if_neg (by simp [hd])] at ha
    obtain ⟨hw, hx⟩ := ha
    obtain ⟨hx1, hx2⟩ := hx ht
    by_cases hwf : o.who = e.from_
    · exact Or.inl ⟨hwf, hx1 hwf⟩
    · rcases hw with hw | hw
      · exact absurd hw hwf
      · exact Or.inr ⟨hw, hx2 hwf hw⟩
  have hfail : ¬ ((o.who = e.from_ ∧ o.receiver = e.to_) ∨
      (o.who = e.to_ ∧ o.receiver = e.from_)) →
      escrow_release_evaluator.do_apply db o = .error db :=
    fun hn => release_error_of he (fun hc => hn (hauth hc.2.2.2.2.2.2))
  refine ⟨fun db1 hok => ?_, hfail, fun h1 h2 => hfail ?_, fun hne hw hrc => hfail ?_,
    fun hne hw hrc => hfail ?_⟩
  · obtain ⟨f, r, e2, -, -, he2, hc, -⟩ := release_ok_inv hok
    have : e2 = e := Option.some.inj (he2.symm.trans he)
    subst this
    exact hauth hc.2.2.2.2.2.2
  · rintro (⟨hw, -⟩ | ⟨hw, -⟩)
    · exact h1 hw
    · exact h2 hw
  · rintro (⟨-, hr⟩ | ⟨hw2, -⟩)
    · exact hne (hrc.symm.trans hr)
    · exact hne (hw.symm.trans hw2)
  · rintro (⟨hw2, -⟩ | ⟨-, hr⟩)
    · exact hne (hw2.symm.trans hw)
    · exact hne (hr.symm.trans hrc)

/-- Witness of C3 amended: before the expiration carol, the agent, cannot release the
undisputed escrow, and alice cannot release it to herself. -/
theorem release_unexpired_only_to_counterparty_witness :
    escrow_release_evaluator.do_apply scenario_ratified (scenario_release "carol" "bob") =
      .error scenario_ratified ∧
    escrow_release_evaluator.do_apply scenario_ratified (scenario_release "alice" "alice") =
      .error scenario_ratified :=
  ⟨(release_unexpired_only_to_counterparty scenario_ratified (scenario_release "carol" "bob")
      scenario_ratified_record (by decide) (by decide) (by decide)).2.1 (by decide),
    (release_unexpired_only_to_counterparty scenario_ratified (scenario_release "alice" "alice")
      scenario_ratified_record (by decide) (by decide) (by decide)).2.2.2.1 (by decide)
      (by decide) (by decide)⟩

/-- C4.  Release on an undisputed record at or after its expiration: with both approval flags
set, `who` and the receiver each the record's `from` or `to` (all four combinations), the
operation's `to` and `agent` the record's, the `from` and receiver accounts existing and
each requested amount of the currency of the record's balance and not above it, the Release
completes. -/
theorem release_expired_any_party (db : database) (o : escrow_release_operation)
    (f r : account_object) (e : escrow_object)
    (he : db.find_escrow o.from_ o.escrow_id = some e) (hd : e.disputed = false)
    (happ : e.to_approved = true ∧ e.agent_approved = true)
    (ht : e.escrow_expiration ≤ db.head_block_time)
    (hw : o.who = e.from_ ∨ o.who = e.to_)
    (hrecv : o.receiver = e.from_ ∨ o.receiver = e.to_)
    (hto : o.to_ = e.to_) (hag : o.agent = e.agent)
    (hf : db.find_account o.from_ = some f) (hr : db.find_account o.receiver = some r)
    (h1 : o.steem_amount.symbol = e.steem_balance.symbol ∧
      o.steem_amount.amount ≤ e.steem_balance.amount)
    (h2 : o.sbd_amount.symbol = e.sbd_balance.symbol ∧
      o.sbd_amount.amount ≤ e.sbd_balance.amount) :
    escrow_release_evaluator.do_apply db o = .ok (release_result db o r e) := by
  refine release_ok_of hf hr he
    ⟨asset_ge_of_le h1, asset_ge_of_le h2, hto.symm, hag.symm, hrecv, happ, ?_⟩
  unfold release_authorized
  rw [if_neg (by simp [hd])]
  exact ⟨hw, fun hc => absurd hc (Nat.not_lt.2 ht)⟩

/-- Witness of C4: at the very time of the expiration alice releases the whole balance to
herself. -/
theorem release_expired_any_party_witness :
    scenario_expired.head_block_time = scenario_ratified_record.escrow_expiration ∧
    escrow_release_evaluator.do_apply scenario_expired (scenario_release "alice" "alice") =
      .ok (release_result scenario_expired (scenario_release "alice" "alice") ⟨"alice", 95, 50⟩
        scenario_ratified_record) :=
  ⟨by decide,
    release_expired_any_party scenario_expired (scenario_release "alice" "alice")
      ⟨"alice", 95, 50⟩ ⟨"alice", 95, 50⟩ scenario_ratified_record
      (by decide) (by decide) (by decide) (by decide) (by decide) (by decide) (by decide)
      (by decide) (by decide) (by decide) (by decide) (by decide)⟩

/-- C5.  No release before ratification: on a record with `to_approved` or `agent_approved`
false every Release throws, whatever its `who`, receiver, amounts, the disputed flag and the
clock, and it throws with the database untouched: no balance and no record has changed. -/
theorem release_requires_ratification (db : database) (o : escrow_release_operation)
    (e : escrow_object) (he : db.find_escrow o.from_ o.escrow_id = some e)
    (h : e.to_approved = false ∨ e.agent_approved = false) :
    escrow_release_evaluator.do_apply db o = .error db := by
  refine release_error_of he (fun hc => ?_)
  obtain ⟨h1, h2⟩ := hc.2.2.2.2.2.1
  rcases h with h | h
  · rw [h] at h1; cases h1
  · rw [h] at h2; cases h2

/-- Witness of C5: after bob's approval alone nothing can be released. -/
theorem release_requires_ratification_witness :
    escrow_release_evaluator.do_apply scenario_half_ratified (scenario_release "alice" "bob") =
      .error scenario_half_ratified :=
  release_requires_ratification scenario_half_ratified (scenario_release "alice" "bob")
    { scenario_record with to_approved := true } (by decide) (by decide)

end steemit.chain

namespace steemit.chain

open asset_symbol_type

/-! ## C6: an Approve by someone who is neither `to` nor `agent` -/

/-- C6, as stated, fails: on the escrow just created, an Approve with `approve = false` by
dave, who is neither its `to` nor its `agent`, completes; it removes the record and refunds
alice, which gives back the ledger from before the Create. -/
theorem approve_by_stranger_counterexample :
    scenario_created.find_escrow "alice" 1 = some scenario_record ∧
    "dave" ≠ scenario_record.to_ ∧ "dave" ≠ scenario_record.agent ∧
    escrow_approve_evaluator.do_apply scenario_created (scenario_approve "dave" false) =
      .ok scenario_genesis ∧
    scenario_genesis ≠ scenario_created := by
  decide

/-- C6, amended.  The Approve evaluator makes no check that `who` is `to` or `agent`.  For a
stored record and an Approve whose `who` is neither: when the operation's `to` or `agent` is
not the record's or the ratification deadline has passed it throws with the database
untouched; otherwise, with `approve = false` it completes when the `from` account exists,
refunding it and removing the record, and with `approve = true` it completes without
setting a flag, so that the database is unchanged unless both flags were set already, when
the pending fee is paid to the agent and cleared. -/
theorem approve_by_other_who (db : database) (o : escrow_approve_operation) (e : escrow_object)
    (he : db.find_escrow o.from_ o.escrow_id = some e)
    (hw1 : o.who ≠ e.to_) (hw2 : o.who ≠ e.agent) :
    (¬ approve_checks db o e → escrow_approve_evaluator.do_apply db o = .error db) ∧
    (approve_checks db o e → o.approve = false → ∀ f, db.find_account o.from_ = some f →
      escrow_approve_evaluator.do_apply db o = .ok (reject_result db f e)) ∧
    (approve_checks db o e → o.approve = true →
      ¬ (e.to_approved = true ∧ e.agent_approved = true) →
      escrow_approve_evaluator.do_apply db o = .ok db) ∧
    (approve_checks db o e → o.approve = true →
      e.to_approved = true ∧ e.agent_approved = true →
      ∀ a, db.find_account o.agent = some a →
      escrow_approve_evaluator.do_apply db o =
        .ok ((db.adjust_balance a e.pending_fee).modify e
          (fun esc => { esc with pending_fee := { esc.pending_fee with amount := 0 } }))) := by
  have key : approve_checks db o e → o.who ≠ o.to_ ∧ o.who ≠ o.agent :=
    fun hc => ⟨fun h => hw1 (h.trans hc.1.symm), fun h => hw2 (h.trans hc.2.1.symm)⟩
  have acc : ∀ hc : approve_checks db o e,
      approve_e2 o e = e ∧ approve_db2 db o e = db := by
    intro hc
    obtain ⟨k1, k2⟩ := key hc
    have e1 : approve_e1 o e = e := if_neg k1
    have d1 : approve_db1 db o e = db := if_neg k1
    constructor
    · rw [approve_e2, if_neg k2, e1]
    · rw [approve_db2, if_neg k2, d1]
  refine ⟨fun hn => ?_, fun hc hr f hf => ?_, fun hc hr hb => ?_, fun hc hr hb a ha => ?_⟩
  · cases hr : o.approve
    · rw [approve_reject_eq db o hr, he]
      exact if_neg (fun hc => hn hc.1)
    · rw [approve_accept_eq db o hr, he]
      exact if_neg (fun hc => hn hc.1)
  · obtain ⟨k1, k2⟩ := key hc
    rw [approve_reject_eq db o hr, he]
    simp only
    rw [if_pos ⟨hc, fun h => absurd h k1, fun h => absurd h k2⟩, hf]
  · obtain ⟨k1, k2⟩ := key hc
    obtain ⟨e2, d2⟩ := acc hc
    rw [approve_accept_eq db o hr, he]
    simp only
    rw [if_pos ⟨hc, fun h => absurd h k1⟩, if_pos (fun h => absurd h k2), e2, d2, if_neg hb]
  · obtain ⟨k1, k2⟩ := key hc
    obtain ⟨e2, d2⟩ := acc hc
    rw [approve_accept_eq db o hr, he]
    simp only [approve_paid]
    rw [if_pos ⟨hc, fun h => absurd h k1⟩, if_pos (fun h => absurd h k2), e2, d2,
      if_pos hb, ha]

/-- Witness of C6 amended: dave rejects the escrow just created, alice has her funds again. -/
theorem approve_by_other_who_witness :
    escrow_approve_evaluator.do_apply scenario_created (scenario_approve "dave" false) =
      .ok (reject_result scenario_created ⟨"alice", 95, 50⟩ scenario_record) :=
  (approve_by_other_who scenario_created (scenario_approve "dave" false) scenario_record
    (by decide) (by decide) (by decide)).2.1 (by decide) (by decide) _ (by decide)

end steemit.chain

namespace steemit.chain

open asset_symbol_type

/-! ## C7: when a record leaves the store -/

section lists

variable {α : Type}

theorem find_modify_first_isSome (p q : α → Bool) (f : α → α) (hq : ∀ x, q (f x) = q x)
    (l : List α) : ((modify_first p f l).find? q).isSome = (l.find? q).isSome := by
  induction l with
  | nil => rfl
  | cons x xs ih =>
    cases hp : p x <;> cases hqx : q x <;> simp [modify_first, hp, List.find?, hqx, hq, ih]

theorem find_eraseP_other (p q : α → Bool) (hpq : ∀ x, p x = true → q x = false) (l : List α) :
    (l.eraseP p).find? q = l.find? q := by
  induction l with
  | nil => rfl
  | cons x xs ih =>
    cases hp : p x
    · cases hqx : q x <;> simp [List.eraseP_cons, hp, List.find?, hqx, ih]
    · simp [List.eraseP_cons, hp, List.find?, hpq x hp]

end lists

/-- The key predicate of one pair excludes that of another pair. -/
theorem key_other {n m : account_name_type} {i j : Nat} (h : ¬ (m = n ∧ j = i))
    (x : escrow_object) (hx : (x.from_ == m && x.escrow_id == j) = true) :
    (x.from_ == n && x.escrow_id == i) = false := by
  simp only [Bool.and_eq_true, beq_iff_eq] at hx
  simp only [Bool.and_eq_false_iff, beq_eq_false_iff_ne, ne_eq]
  by_cases h1 : x.from_ = n
  · right
    intro h2
    exact h ⟨hx.1.symm.trans h1, hx.2.symm.trans h2⟩
  · exact Or.inl h1

theorem find_escrow_modify_isSome (db : database) (e : escrow_object)
    (f : escrow_object → escrow_object)
    (hf : ∀ x, (f x).from_ = x.from_ ∧ (f x).escrow_id = x.escrow_id)
    (n : account_name_type) (i : Nat) :
    ((db.modify e f).find_escrow n i).isSome = (db.find_escrow n i).isSome := by
  unfold database.find_escrow database.modify
  exact find_modify_first_isSome _ _ _ (fun x => by simp only [(hf x).1, (hf x).2]) _

theorem find_escrow_remove_other (db : database) (e : escrow_object)
    (n : account_name_type) (i : Nat) (h : ¬ (e.from_ = n ∧ e.escrow_id = i)) :
    (db.remove e).find_escrow n i = db.find_escrow n i := by
  unfold database.find_escrow database.remove
  exact find_eraseP_other _ _ (key_other h) _

/-- C7, as stated, fails: the ratified escrow, with both approval flags set, is removed by an
Approve with `approve = false` from dave, who is neither its `to` nor its `agent`. -/
theorem removal_of_ratified_counterexample :
    scenario_ratified.find_escrow "alice" 1 = some scenario_ratified_record ∧
    scenario_ratified_record.to_approved = true ∧
    scenario_ratified_record.agent_approved = true ∧
    apply_operation scenario_ratified (.escrow_approve (scenario_approve "dave" false)) =
      .ok scenario_annulled ∧
    scenario_annulled.find_escrow "alice" 1 = none := by
  decide

/-- C7, amended.  A record stored before an operation that completes and absent after it was
removed either by a Release on it that brought both of its balances to zero, or by an Approve
on it with `approve = false`; such an Approve by the record's `to` found `to_approved`
false, and by the record's `agent` found `agent_approved` false, so that no Approve by `to`
or `agent` removes a record whose two approval flags are both set.  (An Approve with
`approve = false` whose `who` is neither of them removes the record whatever its flags.) -/
theorem removal_only_by_settlement_or_rejection (db db1 : database) (op : operation)
    (n : account_name_type) (i : Nat) (e : escrow_object)
    (hs : db.find_escrow n i = some e) (h : apply_operation db op = .ok db1)
    (habs : db1.find_escrow n i = none) :
    (∃ o, op = .escrow_release o ∧ o.from_ = n ∧ o.escrow_id = i ∧
      e.steem_balance.amount - o.steem_amount.amount = 0 ∧
      e.sbd_balance.amount - o.sbd_amount.amount = 0) ∨
    (∃ o, op = .escrow_approve o ∧ o.from_ = n ∧ o.escrow_id = i ∧ o.approve = false ∧
      (o.who = e.to_ → e.to_approved = false) ∧
      (o.who = e.agent → e.agent_approved = false) ∧
      ((o.who = e.to_ ∨ o.who = e.agent) →
        ¬ (e.to_approved = true ∧ e.agent_approved = true))) := by
  have some_ne : ∀ {x : Option escrow_object}, x.isSome = true → x = none → False := by
    intro x h1 h2; rw [h2] at h1; cases h1
  have hsome : (db.find_escrow n i).isSome = true := by rw [hs]; rfl
  cases op with
  | escrow_transfer o =>
    exfalso
    obtain ⟨f, t, a, spent, -, -, -, -, -, -, rfl⟩ := transfer_ok_inv h
    have : (db.escrows ++ [transfer_record o]).find?
        (fun x => x.from_ == n && x.escrow_id == i) = none := habs
    rw [List.find?_append] at this
    have hs2 : db.escrows.find? (fun x => x.from_ == n && x.escrow_id == i) = some e := hs
    rw [hs2] at this
    cases this
  | escrow_dispute o =>
    exfalso
    obtain ⟨f, e0, -, -, -, rfl⟩ := dispute_ok_inv h
    refine some_ne ?_ habs
    rw [find_escrow_modify_isSome db e0 (fun esc => { esc with disputed := true })
      (fun x => ⟨rfl, rfl⟩)]
    exact hsome
  | escrow_approve o =>
    have h : escrow_approve_evaluator.do_apply db o = .ok db1 := h
    cases hr : o.approve
    · obtain ⟨e0, f, he0, -, hc, c1, c2, rfl⟩ := approve_reject_ok_inv hr h
      obtain ⟨k1, k2⟩ := find_escrow_key he0
      by_cases hk : e0.from_ = n ∧ e0.escrow_id = i
      · have hn : o.from_ = n := k1.symm.trans hk.1
        have hi : o.escrow_id = i := k2.symm.trans hk.2
        rw [hn, hi] at he0
        have : e0 = e := Option.some.inj (he0.symm.trans hs)
        subst this
        have t1 : o.who = e0.to_ → e0.to_approved = false := fun hw => c1 (hw.trans hc.1)
        have t2 : o.who = e0.agent → e0.agent_approved = false := fun hw => c2 (hw.trans hc.2.1)
        refine Or.inr ⟨o, rfl, hn, hi, hr, t1, t2, ?_⟩
        rintro (hw | hw) ⟨b1, b2⟩
        · rw [t1 hw] at b1; cases b1
        · rw [t2 hw] at b2; cases b2
      · exfalso
        refine some_ne ?_ habs
        unfold reject_result
        rw [find_escrow_remove_other _ e0 n i hk]
        exact hsome
    · exfalso
      obtain ⟨e0, he0, -, -, -, hcase⟩ := approve_accept_ok_inv hr h
      refine some_ne ?_ habs
      rcases hcase with ⟨-, -, a, -, rfl⟩ | ⟨-, rfl⟩
      · unfold database.find_escrow
        rw [approve_paid_escrows]
        rw [find_modify_first_isSome _ _ _ (fun x => by
          have kx := approve_e2_key o x
          simp only [kx.1, kx.2])]
        exact hsome
      · unfold database.find_escrow
        rw [approve_db2_escrows]
        rw [find_modify_first_isSome _ _ _ (fun x => by
          have kx := approve_e2_key o x
          simp only [kx.1, kx.2])]
        exact hsome
  | escrow_release o =>
    obtain ⟨f, r, e0, -, -, he0, -, rfl⟩ := release_ok_inv h
    obtain ⟨k1, k2⟩ := find_escrow_key he0
    have hmod : ((((db.adjust_balance r o.steem_amount).adjust_balance r o.sbd_amount).modify e0
        (fun esc => { esc with
          steem_balance := { e0.steem_balance with
            amount := e0.steem_balance.amount - o.steem_amount.amount },
          sbd_balance := { e0.sbd_balance with
            amount := e0.sbd_balance.amount - o.sbd_amount.amount } })).find_escrow n i).isSome
        = true := by
      refine Eq.trans (find_escrow_modify_isSome _ e0 _ ?_ n i) hsome
      exact fun x => ⟨rfl, rfl⟩
    unfold release_result at habs
    simp only at habs
    split at habs
    · rename_i hz
      simp only [Bool.and_eq_true, beq_iff_eq] at hz
      by_cases hk : e0.from_ = n ∧ e0.escrow_id = i
      · have hn : o.from_ = n := k1.symm.trans hk.1
        have hi : o.escrow_id = i := k2.symm.trans hk.2
        rw [hn, hi] at he0
        have : e0 = e := Option.some.inj (he0.symm.trans hs)
        subst this
        exact Or.inl ⟨o, rfl, hn, hi, hz.1, hz.2⟩
      · exfalso
        rw [find_escrow_remove_other _ e0 n i hk] at habs
        exact some_ne hmod habs
    · exact absurd habs (fun hc => some_ne hmod hc)

/-- Witness of C7 amended: the release that settles the ratified escrow removes its record,
and it is a Release that brought both balances to zero. -/
theorem removal_only_by_settlement_or_rejection_witness :
    (∃ o, operation.escrow_release (scenario_release "alice" "bob") = .escrow_release o ∧
      o.from_ = "alice" ∧ o.escrow_id = 1 ∧
      scenario_ratified_record.steem_balance.amount - o.steem_amount.amount = 0 ∧
      scenario_ratified_record.sbd_balance.amount - o.sbd_amount.amount = 0) ∨
    (∃ o, operation.escrow_release (scenario_release "alice" "bob") = .escrow_approve o ∧
      o.from_ = "alice" ∧ o.escrow_id = 1 ∧ o.approve = false ∧
      (o.who = scenario_ratified_record.to_ → scenario_ratified_record.to_approved = false) ∧
      (o.who = scenario_ratified_record.agent →
        scenario_ratified_record.agent_approved = false) ∧
      ((o.who = scenario_ratified_record.to_ ∨ o.who = scenario_ratified_record.agent) →
        ¬ (scenario_ratified_record.to_approved = true ∧
          scenario_ratified_record.agent_approved = true))) :=
  removal_only_by_settlement_or_rejection scenario_ratified scenario_settled
    (.escrow_release (scenario_release "alice" "bob")) "alice" 1 scenario_ratified_record
    (by decide) (by decide) (by decide)

end steemit.chain

namespace steemit.chain

open asset_symbol_type

/-! ## C8: rejection refunds in full -/

section lists

variable {α : Type}

theorem eraseP_eq_erase [DecidableEq α] (p : α → Bool) (l : List α) (e : α)
    (h : l.find? p = some e) : l.eraseP p = l.erase e := by
  induction l with
  | nil => simp at h
  | cons x xs ih =>
    cases hp : p x
    · simp only [List.find?, hp] at h
      have hpe : p e = true := List.find?_some h
      have hne : x ≠ e := fun hc => by rw [hc, hpe] at hp; cases hp
      simp [List.eraseP_cons, hp, List.erase_cons, hne, ih h]
    · simp only [List.find?, hp, Option.some.injEq] at h
      subst h
      simp [List.eraseP_cons, hp]

theorem find_eraseP_none (p : α → Bool) (R : α → α → Prop) (l : List α)
    (hR : ∀ x y, p x = true → p y = true → ¬ R x y → False) (hl : l.Pairwise (fun a b => ¬ R a b)) :
    (l.eraseP p).find? p = none := by
  induction l with
  | nil => rfl
  | cons x xs ih =>
    rw [List.pairwise_cons] at hl
    cases hp : p x
    · simp only [List.eraseP_cons, hp, cond_false, List.find?, ih hl.2]
    · simp only [List.eraseP_cons, hp, cond_true]
      rw [List.find?_eq_none]
      intro y hy hpy
      exact hR x y hp hpy (hl.1 y hy)

end lists

theorem find_escrow_remove_same (db : database) (e : escrow_object) (hu : db.unique_keys) :
    (db.remove e).find_escrow e.from_ e.escrow_id = none := by
  unfold database.find_escrow database.remove
  refine find_eraseP_none _
    (fun (a b : escrow_object) => a.from_ = b.from_ ∧ a.escrow_id = b.escrow_id) _ ?_ hu
  intro x y hx hy hn
  simp only [Bool.and_eq_true, beq_iff_eq] at hx hy
  exact hn ⟨hx.1.trans hy.1.symm, hx.2.trans hy.2.symm⟩

theorem balance_of_congr {db db1 : database} (h : db1.accounts = db.accounts)
    (n : account_name_type) (s : asset_symbol_type) : db1.balance_of n s = db.balance_of n s := by
  unfold database.balance_of database.find_account
  rw [h]

/-- C8.  Rejection refunds in full: an Approve with `approve = false` that completes on a
stored record credits the record's `from` account, in each currency, with exactly what the
record's `steem_balance`, `sbd_balance` and `pending_fee` hold of that currency, changes no
other account's balance, and removes the record from the store, after which (the store
holding one record per key) nothing is stored under its key. -/
theorem reject_refunds_in_full (db db1 : database) (o : escrow_approve_operation)
    (e : escrow_object) (he : db.find_escrow o.from_ o.escrow_id = some e)
    (hr : o.approve = false) (h : escrow_approve_evaluator.do_apply db o = .ok db1) :
    (∀ s, ∃ b, db.balance_of e.from_ s = some b ∧
      db1.balance_of e.from_ s = some (b + e.steem_balance.of_symbol s +
        e.sbd_balance.of_symbol s + e.pending_fee.of_symbol s)) ∧
    (∀ n, n ≠ e.from_ → ∀ s, db1.balance_of n s = db.balance_of n s) ∧
    e ∈ db.escrows ∧ db1.escrows = db.escrows.erase e ∧
    (db.unique_keys → db1.find_escrow o.from_ o.escrow_id = none) := by
  obtain ⟨e0, f, he0, hf, -, -, -, rfl⟩ := approve_reject_ok_inv hr h
  have : e0 = e := Option.some.inj (he0.symm.trans he)
  subst this
  obtain ⟨k1, k2⟩ := find_escrow_key he
  have hfn : f.name = e0.from_ := (find_account_name hf).trans k1.symm
  have hacc : (reject_result db f e0).accounts =
      (((db.adjust_balance f e0.steem_balance).adjust_balance f e0.sbd_balance).adjust_balance f
        e0.pending_fee).accounts := rfl
  refine ⟨fun s => ?_, fun n hn s => ?_, mem_of_find_escrow he, ?_, fun hu => ?_⟩
  · refine ⟨f.holding s, ?_, ?_⟩
    · unfold database.balance_of
      rw [k1, hf]; rfl
    · rw [balance_of_congr hacc, ← hfn, balance_of_adjust_same, balance_of_adjust_same,
        balance_of_adjust_same]
      unfold database.balance_of
      rw [find_account_self hf]
      simp only [Option.map_some']
  · rw [balance_of_congr hacc, balance_of_adjust_other _ _ _ _ _ (hfn ▸ hn),
      balance_of_adjust_other _ _ _ _ _ (hfn ▸ hn), balance_of_adjust_other _ _ _ _ _ (hfn ▸ hn)]
  · exact eraseP_eq_erase _ _ _ (self_key he)
  · rw [← k1, ← k2]
    exact find_escrow_remove_same _ e0 hu

/-- Witness of C8 (scenario C): bob rejects the escrow just created; alice has 105 of the
first currency back and the record is gone. -/
theorem reject_refunds_in_full_witness :
    escrow_approve_evaluator.do_apply scenario_created (scenario_approve "bob" false) =
      .ok scenario_genesis ∧
    (∃ b, scenario_created.balance_of "alice" STEEM_SYMBOL_NAME = some b ∧
      scenario_genesis.balance_of "alice" STEEM_SYMBOL_NAME = some (b +
        scenario_record.steem_balance.of_symbol STEEM_SYMBOL_NAME +
        scenario_record.sbd_balance.of_symbol STEEM_SYMBOL_NAME +
        scenario_record.pending_fee.of_symbol STEEM_SYMBOL_NAME)) ∧
    scenario_genesis.find_escrow "alice" 1 = none :=
  have w := reject_refunds_in_full scenario_created scenario_genesis (scenario_approve "bob" false)
    scenario_record (by decide) (by decide) (by decide)
  ⟨by decide, w.1 STEEM_SYMBOL_NAME, w.2.2.2.2 (by decide)⟩

end steemit.chain

namespace steemit.chain

open asset_symbol_type

/-! ## C9: what a Create leaves -/

theorem transfer_spent_inv {o : escrow_transfer_operation} {spent : asset × asset}
    (h : transfer_spent o = some spent) :
    spent.1.symbol = o.steem_amount.symbol ∧ spent.2.symbol = o.sbd_amount.symbol ∧
    (spent.1.symbol = STEEM_SYMBOL_NAME →
      spent.1.amount = o.steem_amount.amount + o.fee.of_symbol STEEM_SYMBOL_NAME) ∧
    (spent.2.symbol = SBD_SYMBOL_NAME →
      spent.2.amount = o.sbd_amount.amount + o.fee.of_symbol SBD_SYMBOL_NAME) := by
  unfold transfer_spent at h
  split at h
  · rename_i hs
    cases ha : o.steem_amount.add o.fee <;> simp only [ha, Option.map_some', Option.map_none',
      reduceCtorEq, Option.some.injEq] at h
    obtain ⟨-, hc⟩ := asset_add_some ha
    subst h
    subst hc
    refine ⟨rfl, rfl, fun _ => ?_, fun _ => ?_⟩
    · simp [asset.of_symbol, hs]
    · simp [asset.of_symbol, hs]
  · rename_i hs
    cases ha : o.sbd_amount.add o.fee <;> simp only [ha, Option.map_some', Option.map_none',
      reduceCtorEq, Option.some.injEq] at h
    obtain ⟨hs2, hc⟩ := asset_add_some ha
    subst h
    subst hc
    refine ⟨rfl, rfl, fun _ => ?_, fun h2 => ?_⟩
    · simp [asset.of_symbol, hs]
    · have : o.fee.symbol = SBD_SYMBOL_NAME := hs2.symm.trans h2
      simp [asset.of_symbol, this]

/-- C9.  Create postcondition: a Create that completes found the `from` account, its amounts
are of their own currencies, and afterwards `from`'s balance in each currency is lower by
that currency's amount plus the fee when the fee is of that currency, no other account's
balance has changed, and the store, which held nothing under `(from, escrow_id)`, has gained
one record under that key: parties, deadlines, the raw amounts as balances and the fee as
pending fee are the operation's, and `to_approved`, `agent_approved` and `disputed` are
false. -/
theorem create_postcondition (db db1 : database) (o : escrow_transfer_operation)
    (h : escrow_transfer_evaluator.do_apply db o = .ok db1) :
    ∃ f, db.find_account o.from_ = some f ∧
      o.steem_amount.symbol = STEEM_SYMBOL_NAME ∧ o.sbd_amount.symbol = SBD_SYMBOL_NAME ∧
      db1.balance_of o.from_ STEEM_SYMBOL_NAME =
        some (f.balance - (o.steem_amount.amount + o.fee.of_symbol STEEM_SYMBOL_NAME)) ∧
      db1.balance_of o.from_ SBD_SYMBOL_NAME =
        some (f.sbd_balance - (o.sbd_amount.amount + o.fee.of_symbol SBD_SYMBOL_NAME)) ∧
      (∀ n, n ≠ o.from_ → ∀ s, db1.balance_of n s = db.balance_of n s) ∧
      db.find_escrow o.from_ o.escrow_id = none ∧
      db1.escrows = db.escrows ++
        [{ escrow_id := o.escrow_id, from_ := o.from_, to_ := o.to_, agent := o.agent,
           ratification_deadline := o.ratification_deadline,
           escrow_expiration := o.escrow_expiration,
           sbd_balance := o.sbd_amount, steem_balance := o.steem_amount, pending_fee := o.fee,
           to_approved := false, agent_approved := false, disputed := false }] ∧
      db1.find_escrow o.from_ o.escrow_id =
        some { escrow_id := o.escrow_id, from_ := o.from_, to_ := o.to_, agent := o.agent,
               ratification_deadline := o.ratification_deadline,
               escrow_expiration := o.escrow_expiration,
               sbd_balance := o.sbd_amount, steem_balance := o.steem_amount,
               pending_fee := o.fee,
               to_approved := false, agent_approved := false, disputed := false } := by
  obtain ⟨f, t, a, spent, hf, -, -, hs, hc, hnone, rfl⟩ := transfer_ok_inv h
  obtain ⟨i1, i2, i3, i4⟩ := transfer_spent_inv hs
  have g1 := (asset_ge_true hc.2.1).1
  have g2 := (asset_ge_true hc.2.2).1
  simp only at g1 g2
  have hfn : f.name = o.from_ := find_account_name hf
  have hacc : ∀ n s, (database.mk
      ((db.adjust_balance f spent.1.neg).adjust_balance f spent.2.neg).accounts
      (db.escrows ++ [transfer_record o])
      ((db.adjust_balance f spent.1.neg).adjust_balance f spent.2.neg).head_block_time).balance_of
        n s = ((db.adjust_balance f spent.1.neg).adjust_balance f spent.2.neg).balance_of n s :=
    fun n s => balance_of_congr rfl n s
  have hbal : ∀ s, ((db.adjust_balance f spent.1.neg).adjust_balance f spent.2.neg).balance_of
      o.from_ s = some (f.holding s + spent.1.neg.of_symbol s + spent.2.neg.of_symbol s) := by
    intro s
    rw [← hfn, balance_of_adjust_same, balance_of_adjust_same]
    unfold database.balance_of
    rw [find_account_self hf]
    rfl
  refine ⟨f, hf, i1.symm.trans g1.symm, i2.symm.trans g2.symm, ?_, ?_, fun n hn s => ?_, hnone,
    rfl, ?_⟩
  · refine (hacc _ _).trans ((hbal _).trans ?_)
    simp only [asset.of_symbol, asset.neg, ← g1, ← g2, if_true, reduceCtorEq, if_false,
      account_object.holding, Option.some.injEq]
    have := i3 g1.symm
    simp only [asset.of_symbol] at this
    rw [this]; ring
  · refine (hacc _ _).trans ((hbal _).trans ?_)
    simp only [asset.of_symbol, asset.neg, ← g1, ← g2, if_true, reduceCtorEq, if_false,
      account_object.holding, Option.some.injEq]
    have := i4 g2.symm
    simp only [asset.of_symbol] at this
    rw [this]; ring
  · refine (hacc _ _).trans ?_
    rw [balance_of_adjust_other _ _ _ _ _ (hfn ▸ hn), balance_of_adjust_other _ _ _ _ _ (hfn ▸ hn)]
  · have hn2 : db.escrows.find? (fun x => x.from_ == o.from_ && x.escrow_id == o.escrow_id) = none :=
      hnone
    show (db.escrows ++ [transfer_record o]).find?
      (fun x => x.from_ == o.from_ && x.escrow_id == o.escrow_id) = _
    rw [List.find?_append, hn2]
    simp [transfer_record]

/-- Witness of C9 (scenario A): the Create debits alice 105 and stores the record. -/
theorem create_postcondition_witness :
    escrow_transfer_evaluator.do_apply scenario_genesis scenario_create = .ok scenario_created ∧
    ∃ f, scenario_genesis.find_account scenario_create.from_ = some f ∧
      scenario_created.balance_of scenario_create.from_ STEEM_SYMBOL_NAME =
        some (f.balance - (scenario_create.steem_amount.amount +
          scenario_create.fee.of_symbol STEEM_SYMBOL_NAME)) :=
  have w := create_postcondition scenario_genesis scenario_created scenario_create (by decide)
  ⟨by decide, w.elim (fun f hf => ⟨f, hf.1, hf.2.2.2.1⟩)⟩

end steemit.chain

namespace steemit.chain

open asset_symbol_type

/-! ## C10: the fee is paid on the approval that completes the ratification -/

/-- C10.  For a stored record and an Approve with `approve = true` by the record's `to` or
`agent` that completes: when both approval flags are true once the caller's flag is set, the
agent account is credited exactly the record's pending fee (in the fee's currency), no other
account's balance changes, and the stored record, both flags set, has pending fee zero;
otherwise no account balance changes and the stored record, the caller's flag set, keeps its
pending fee. -/
theorem fee_paid_on_completing_approval (db db1 : database) (o : escrow_approve_operation)
    (e : escrow_object) (he : db.find_escrow o.from_ o.escrow_id = some e)
    (hr : o.approve = true) (hw : o.who = e.to_ ∨ o.who = e.agent)
    (h : escrow_approve_evaluator.do_apply db o = .ok db1) :
    ((o.who = e.to_ ∨ e.to_approved = true) ∧ (o.who = e.agent ∨ e.agent_approved = true) →
      (∀ s, ∃ b, db.balance_of e.agent s = some b ∧
        db1.balance_of e.agent s = some (b + e.pending_fee.of_symbol s)) ∧
      (∀ n, n ≠ e.agent → ∀ s, db1.balance_of n s = db.balance_of n s) ∧
      ∃ e1, db1.find_escrow o.from_ o.escrow_id = some e1 ∧
        e1.to_approved = true ∧ e1.agent_approved = true ∧ e1.pending_fee.amount = 0 ∧
        e1.pending_fee.symbol = e.pending_fee.symbol) ∧
    (¬ ((o.who = e.to_ ∨ e.to_approved = true) ∧ (o.who = e.agent ∨ e.agent_approved = true)) →
      db1.accounts = db.accounts ∧
      ∃ e1, db1.find_escrow o.from_ o.escrow_id = some e1 ∧
        e1.pending_fee = e.pending_fee ∧
        (o.who = e.to_ → e1.to_approved = true) ∧
        (o.who = e.agent → e1.agent_approved = true)) := by
  obtain ⟨e0, he0, hc, -, -, hcase⟩ := approve_accept_ok_inv hr h
  have : e0 = e := Option.some.inj (he0.symm.trans he)
  subst this
  obtain ⟨k1, k2⟩ := find_escrow_key he
  obtain ⟨f1, f2⟩ := approve_e2_flags o e0
  have c1 : (approve_e2 o e0).to_approved = true ↔ (o.who = e0.to_ ∨ e0.to_approved = true) := by
    rw [f1, hc.1]; simp
  have c2 : (approve_e2 o e0).agent_approved = true ↔
      (o.who = e0.agent ∨ e0.agent_approved = true) := by
    rw [f2, hc.2.1]; simp
  have hfind2 : (approve_db2 db o e0).find_escrow o.from_ o.escrow_id =
      some (approve_e2 o e0) := by
    have := approve_db2_find (o := o) (self_key he)
    rwa [k1, k2] at this
  obtain ⟨hacc2, -⟩ := approve_db2_accounts db o e0
  rcases hcase with ⟨b1, b2, a, ha, rfl⟩ | ⟨hn, rfl⟩
  · refine ⟨fun _ => ⟨fun s => ?_, fun n hn s => ?_, ?_⟩, fun hn => absurd ⟨c1.1 b1, c2.1 b2⟩ hn⟩
    · have han : a.name = e0.agent := (find_account_name ha).trans hc.2.1.symm
      have hacc : (approve_paid db o e0 a).accounts =
          ((approve_db2 db o e0).adjust_balance a (approve_e2 o e0).pending_fee).accounts := rfl
      refine ⟨a.holding s, ?_, ?_⟩
      · rw [← balance_of_congr hacc2, ← han]
        unfold database.balance_of
        rw [find_account_self ha]; rfl
      · rw [balance_of_congr hacc, ← han, balance_of_adjust_same]
        unfold database.balance_of
        rw [find_account_self ha, (approve_e2_fee o e0).1]
        rfl
    · have han : a.name = e0.agent := (find_account_name ha).trans hc.2.1.symm
      have hacc : (approve_paid db o e0 a).accounts =
          ((approve_db2 db o e0).adjust_balance a (approve_e2 o e0).pending_fee).accounts := rfl
      rw [balance_of_congr hacc, balance_of_adjust_other _ _ _ _ _ (han ▸ hn),
        balance_of_congr hacc2]
    · have k := approve_e2_key o e0
      have hf2 : ((approve_db2 db o e0).adjust_balance a
          (approve_e2 o e0).pending_fee).find_escrow (approve_e2 o e0).from_
          (approve_e2 o e0).escrow_id = some (approve_e2 o e0) := by
        rw [k.1, k.2, k1, k2]; exact hfind2
      have hm := find_escrow_modify_same
        ((approve_db2 db o e0).adjust_balance a (approve_e2 o e0).pending_fee) (approve_e2 o e0)
        (fun esc => { esc with pending_fee := { esc.pending_fee with amount := 0 } })
        (fun x => ⟨rfl, rfl⟩)
      rw [hf2, k.1, k.2, k1, k2] at hm
      exact ⟨_, hm, b1, b2, rfl,
        (congrArg asset.symbol (approve_e2_fee o e0).1 :
          (approve_e2 o e0).pending_fee.symbol = e0.pending_fee.symbol)⟩
  · refine ⟨fun hb => absurd ⟨c1.2 hb.1, c2.2 hb.2⟩ hn, fun _ =>
      ⟨hacc2, approve_e2 o e0, hfind2, (approve_e2_fee o e0).1, fun hw1 => c1.2 (Or.inl hw1),
        fun hw2 => c2.2 (Or.inl hw2)⟩⟩

/-- Witness of C10 (scenario A): carol's approval completes the ratification; she is credited
the fee of 5 and the record's pending fee is zero. -/
theorem fee_paid_on_completing_approval_witness :
    escrow_approve_evaluator.do_apply scenario_half_ratified (scenario_approve "carol" true) =
      .ok scenario_ratified ∧
    (∃ b, scenario_half_ratified.balance_of "carol" STEEM_SYMBOL_NAME = some b ∧
      scenario_ratified.balance_of "carol" STEEM_SYMBOL_NAME = some (b + 5)) ∧
    ∃ e1, scenario_ratified.find_escrow "alice" 1 = some e1 ∧
      e1.to_approved = true ∧ e1.agent_approved = true ∧ e1.pending_fee.amount = 0 ∧
      e1.pending_fee.symbol = STEEM_SYMBOL_NAME :=
  have w := (fee_paid_on_completing_approval scenario_half_ratified scenario_ratified
    (scenario_approve "carol" true) { scenario_record with to_approved := true }
    (by decide) (by decide) (by decide) (by decide)).1 (by decide)
  ⟨by decide, w.1 STEEM_SYMBOL_NAME, w.2.2⟩

end steemit.chain

namespace steemit.chain

open asset_symbol_type

/-! ## C11: fully approved records hold no fee -/

/-- An invariant of the escrow store that every completed operation keeps holds in every
state reached from an empty store. -/
theorem reachable_by_invariant {P : operation → Prop} (I : List escrow_object → Prop)
    (h0 : I [])
    (hstep : ∀ db db1 op, I db.escrows → P op → apply_operation db op = .ok db1 → I db1.escrows)
    (db : database) (hr : reachable_by P db) : I db.escrows := by
  induction hr with
  | empty db h => rw [h]; exact h0
  | step db db1 op _ hp h ih => exact hstep db db1 op ih hp h
  | other db db1 _ h ih => rw [h]; exact ih

theorem balance_of_adjust_zero (db : database) (a : account_object) (delta : asset)
    (h : delta.amount = 0) (n : account_name_type) (s : asset_symbol_type) :
    (db.adjust_balance a delta).balance_of n s = db.balance_of n s := by
  by_cases hn : n = a.name
  · subst hn
    rw [balance_of_adjust_same]
    have : delta.of_symbol s = 0 := by
      unfold asset.of_symbol; split
      · exact h
      · rfl
    rw [this]
    cases db.balance_of a.name s <;> simp
  · exact balance_of_adjust_other db a delta n s hn

/-- C11.  In every state reached from an empty escrow store by Create, Approve, Dispute and
Release operations, every stored record with `to_approved` and `agent_approved` both true has
pending fee zero; and an Approve that completes on such a record credits nobody: the fee is
paid to the agent when the second flag is set and not again. -/
theorem fully_approved_hold_no_fee (db : database) (hr : reachable db) :
    (∀ e ∈ db.escrows, e.to_approved = true → e.agent_approved = true →
      e.pending_fee.amount = 0) ∧
    (∀ o e db1, db.find_escrow o.from_ o.escrow_id = some e →
      e.to_approved = true → e.agent_approved = true → o.approve = true →
      escrow_approve_evaluator.do_apply db o = .ok db1 →
      ∀ n s, db1.balance_of n s = db.balance_of n s) := by
  have hinv : db.fee_settled :=
    reachable_by_invariant
      (fun l => ∀ e ∈ l, e.to_approved = true → e.agent_approved = true →
        e.pending_fee.amount = 0)
      (fun e he => by cases he)
      (fun _ _ _ hI _ h => fee_settled_step hI h) db hr
  refine ⟨hinv, fun o e db1 he h1 h2 ha hok n s => ?_⟩
  obtain ⟨e0, he0, hc, c1, c2, hcase⟩ := approve_accept_ok_inv ha hok
  have : e0 = e := Option.some.inj (he0.symm.trans he)
  subst this
  have k1 : ¬ o.who = o.to_ := fun hw => by rw [c1 hw] at h1; cases h1
  have k2 : ¬ o.who = o.agent := fun hw => by rw [c2 hw] at h2; cases h2
  have e1 : approve_e1 o e0 = e0 := if_neg k1
  have d1 : approve_db1 db o e0 = db := if_neg k1
  have e2 : approve_e2 o e0 = e0 := by rw [approve_e2, if_neg k2, e1]
  have d2 : approve_db2 db o e0 = db := by rw [approve_db2, if_neg k2, d1]
  rcases hcase with ⟨-, -, a, -, rfl⟩ | ⟨-, rfl⟩
  · have hfee := hinv e0 (mem_of_find_escrow he) h1 h2
    have hacc : (approve_paid db o e0 a).accounts =
        ((approve_db2 db o e0).adjust_balance a (approve_e2 o e0).pending_fee).accounts := rfl
    rw [balance_of_congr hacc, e2, d2]
    exact balance_of_adjust_zero db a e0.pending_fee hfee n s
  · rw [d2]

/-- Witness of C11: the ratified ledger of the scenario is reached from the empty store by the
Create and the two approvals, and its record holds no fee. -/
theorem fully_approved_hold_no_fee_witness :
    apply_operation scenario_genesis (.escrow_transfer scenario_create) = .ok scenario_created ∧
    scenario_ratified.fee_settled :=
  ⟨by decide,
    (fully_approved_hold_no_fee scenario_ratified
      (reachable_by.step scenario_half_ratified scenario_ratified
        (.escrow_approve (scenario_approve "carol" true))
        (reachable_by.step scenario_created scenario_half_ratified
          (.escrow_approve (scenario_approve "bob" true))
          (reachable_by.step scenario_genesis scenario_created (.escrow_transfer scenario_create)
            (reachable_by.empty scenario_genesis rfl) trivial (by decide))
          trivial (by decide))
        trivial (by decide))).1⟩

end steemit.chain

namespace steemit.chain

open asset_symbol_type

/-! ## C12: what a Release leaves -/

theorem eraseP_modify_first {α : Type} (p : α → Bool) (f : α → α) (hpf : ∀ x, p (f x) = p x)
    (l : List α) : (modify_first p f l).eraseP p = l.eraseP p := by
  induction l with
  | nil => rfl
  | cons x xs ih =>
    cases hp : p x
    · simp [modify_first, hp, List.eraseP_cons, ih]
    · simp [modify_first, hp, List.eraseP_cons, hpf]

theorem release_result_accounts (db : database) (o : escrow_release_operation)
    (r : account_object) (e : escrow_object) :
    (release_result db o r e).accounts =
      ((db.adjust_balance r o.steem_amount).adjust_balance r o.sbd_amount).accounts := by
  unfold release_result
  simp only
  split <;> rfl

/-- C12.  Release postcondition: a Release that completes on a stored record has the
record's `from` or `to` as receiver, credits the receiver account with exactly the requested
amounts, each in its currency, and changes no other account's balance.  When both balances
of the record come to zero the record leaves the store (and, the store holding one record per
key, nothing is found under its key); otherwise the record stays, its two balances lower by
exactly the requested amounts and every other field as it was. -/
theorem release_postcondition (db db1 : database) (o : escrow_release_operation)
    (e : escrow_object) (he : db.find_escrow o.from_ o.escrow_id = some e)
    (h : escrow_release_evaluator.do_apply db o = .ok db1) :
    (o.receiver = e.from_ ∨ o.receiver = e.to_) ∧
    (o.steem_amount.symbol = e.steem_balance.symbol ∧
      o.sbd_amount.symbol = e.sbd_balance.symbol) ∧
    (∀ s, ∃ b, db.balance_of o.receiver s = some b ∧
      db1.balance_of o.receiver s =
        some (b + o.steem_amount.of_symbol s + o.sbd_amount.of_symbol s)) ∧
    (∀ n, n ≠ o.receiver → ∀ s, db1.balance_of n s = db.balance_of n s) ∧
    (e.steem_balance.amount - o.steem_amount.amount = 0 ∧
        e.sbd_balance.amount - o.sbd_amount.amount = 0 →
      db1.escrows = db.escrows.erase e ∧
      (db.unique_keys → db1.find_escrow o.from_ o.escrow_id = none)) ∧
    (¬ (e.steem_balance.amount - o.steem_amount.amount = 0 ∧
        e.sbd_balance.amount - o.sbd_amount.amount = 0) →
      db1.find_escrow o.from_ o.escrow_id =
        some { e with
          steem_balance :=
            { e.steem_balance with amount := e.steem_balance.amount - o.steem_amount.amount },
          sbd_balance :=
            { e.sbd_balance with amount := e.sbd_balance.amount - o.sbd_amount.amount } }) := by
  obtain ⟨f, r, e0, -, hr, he0, hc, rfl⟩ := release_ok_inv h
  have : e0 = e := Option.some.inj (he0.symm.trans he)
  subst this
  obtain ⟨k1, k2⟩ := find_escrow_key he
  obtain ⟨h1, h2, -, -, hrecv, -, -⟩ := hc
  have hrn : r.name = o.receiver := find_account_name hr
  have hacc := release_result_accounts db o r e0
  have hmod := find_escrow_modify_same
    ((db.adjust_balance r o.steem_amount).adjust_balance r o.sbd_amount) e0
    (fun esc => { esc with
      steem_balance :=
        { e0.steem_balance with amount := e0.steem_balance.amount - o.steem_amount.amount },
      sbd_balance :=
        { e0.sbd_balance with amount := e0.sbd_balance.amount - o.sbd_amount.amount } })
    (fun x => ⟨rfl, rfl⟩)
  have hek : ((db.adjust_balance r o.steem_amount).adjust_balance r o.sbd_amount).find_escrow
      e0.from_ e0.escrow_id = some e0 := self_key he
  rw [hek, k1, k2] at hmod
  refine ⟨hrecv, ⟨(asset_ge_true h1).1.symm, (asset_ge_true h2).1.symm⟩, fun s => ?_,
    fun n hn s => ?_, fun hz => ?_, fun hz => ?_⟩
  · refine ⟨r.holding s, ?_, ?_⟩
    · unfold database.balance_of
      rw [hr]; rfl
    · rw [balance_of_congr hacc, ← hrn, balance_of_adjust_same, balance_of_adjust_same]
      unfold database.balance_of
      rw [find_account_self hr]
      rfl
  · rw [balance_of_congr hacc, balance_of_adjust_other _ _ _ _ _ (hrn ▸ hn),
      balance_of_adjust_other _ _ _ _ _ (hrn ▸ hn)]
  · have hz2 : (e0.steem_balance.amount - o.steem_amount.amount == 0 &&
        e0.sbd_balance.amount - o.sbd_amount.amount == 0) = true := by
      simp [hz.1, hz.2]
    have hres : (release_result db o r e0).escrows =
        db.escrows.eraseP (fun x => x.from_ == e0.from_ && x.escrow_id == e0.escrow_id) := by
      unfold release_result
      simp only
      rw [if_pos hz2]
      refine eraseP_modify_first _ _ ?_ _
      exact fun x => rfl
    refine ⟨hres.trans (eraseP_eq_erase _ _ _ (self_key he)), fun hu => ?_⟩
    have := find_escrow_remove_same db e0 hu
    rw [k1, k2] at this
    unfold database.find_escrow at this ⊢
    rw [hres]
    exact this
  · have hz2 : ¬ ((e0.steem_balance.amount - o.steem_amount.amount == 0 &&
        e0.sbd_balance.amount - o.sbd_amount.amount == 0) = true) := by
      intro hc
      simp only [Bool.and_eq_true, beq_iff_eq] at hc
      exact hz hc
    unfold release_result
    simp only
    rw [if_neg hz2]
    exact hmod

/-- Witness of C12 (scenario B): alice releases the whole balance to bob; bob is credited 100
and the record leaves the store. -/
theorem release_postcondition_witness :
    escrow_release_evaluator.do_apply scenario_ratified (scenario_release "alice" "bob") =
      .ok scenario_settled ∧
    (∃ b, scenario_ratified.balance_of "bob" STEEM_SYMBOL_NAME = some b ∧
      scenario_settled.balance_of "bob" STEEM_SYMBOL_NAME = some (b +
        (scenario_release "alice" "bob").steem_amount.of_symbol STEEM_SYMBOL_NAME +
        (scenario_release "alice" "bob").sbd_amount.of_symbol STEEM_SYMBOL_NAME)) ∧
    scenario_settled.escrows = scenario_ratified.escrows.erase scenario_ratified_record :=
  have w := release_postcondition scenario_ratified scenario_settled
    (scenario_release "alice" "bob") scenario_ratified_record (by decide) (by decide)
  ⟨by decide, w.2.2.1 STEEM_SYMBOL_NAME, (w.2.2.2.2.1 (by decide)).1⟩

end steemit.chain

namespace steemit.chain

open asset_symbol_type

/-! ## C13: when a Create completes -/

theorem transfer_spent_some (o : escrow_transfer_operation)
    (hs1 : o.steem_amount.symbol = STEEM_SYMBOL_NAME)
    (hs2 : o.sbd_amount.symbol = SBD_SYMBOL_NAME) :
    ∃ spent, transfer_spent o = some spent := by
  unfold transfer_spent
  by_cases hf : o.fee.symbol = STEEM_SYMBOL_NAME
  · rw [if_pos hf]
    have : o.steem_amount.add o.fee = some _ := if_pos (hs1.trans hf.symm)
    rw [this]
    exact ⟨_, rfl⟩
  · rw [if_neg hf]
    have hf2 : o.fee.symbol = SBD_SYMBOL_NAME := by
      cases hfs : o.fee.symbol
      · exact absurd hfs hf
      · rfl
    have : o.sbd_amount.add o.fee = some _ := if_pos (hs2.trans hf2.symm)
    rw [this]
    exact ⟨_, rfl⟩

/-- C13.  Create completes exactly under its preconditions: in a state with no record stored
under `(from, escrow_id)`, and for an operation whose two amounts are of their currencies, a
Create completes if and only if the `from`, `to` and `agent` accounts exist, the
ratification deadline and the expiration are both strictly after the current time, `from`'s
balance of the first currency is at least the amount plus the fee when the fee is of that
currency, and likewise for the second currency. -/
theorem create_succeeds_iff (db : database) (o : escrow_transfer_operation)
    (hnone : db.find_escrow o.from_ o.escrow_id = none)
    (hs1 : o.steem_amount.symbol = STEEM_SYMBOL_NAME)
    (hs2 : o.sbd_amount.symbol = SBD_SYMBOL_NAME) :
    (∃ db1, escrow_transfer_evaluator.do_apply db o = .ok db1) ↔
    (∃ f, db.find_account o.from_ = some f ∧
      (db.find_account o.to_).isSome = true ∧ (db.find_account o.agent).isSome = true ∧
      db.head_block_time < o.ratification_deadline ∧
      db.head_block_time < o.escrow_expiration ∧
      o.steem_amount.amount + o.fee.of_symbol STEEM_SYMBOL_NAME ≤ f.balance ∧
      o.sbd_amount.amount + o.fee.of_symbol SBD_SYMBOL_NAME ≤ f.sbd_balance) := by
  constructor
  · rintro ⟨db1, h⟩
    obtain ⟨f, t, a, spent, hf, ht, ha, hs, hc, -, -⟩ := transfer_ok_inv h
    obtain ⟨i1, i2, i3, i4⟩ := transfer_spent_inv hs
    have g1 := asset_ge_true hc.2.1
    have g2 := asset_ge_true hc.2.2
    simp only at g1 g2
    refine ⟨f, hf, by rw [ht]; rfl, by rw [ha]; rfl, hc.1.1, hc.1.2, ?_, ?_⟩
    · rw [← i3 (i1.trans hs1)]; exact g1.2
    · rw [← i4 (i2.trans hs2)]; exact g2.2
  · rintro ⟨f, hf, ht, ha, d1, d2, b1, b2⟩
    obtain ⟨spent, hs⟩ := transfer_spent_some o hs1 hs2
    obtain ⟨i1, i2, i3, i4⟩ := transfer_spent_inv hs
    have hc : transfer_checks db o f spent := by
      refine ⟨⟨d1, d2⟩, asset_ge_of_le ⟨i1.trans hs1, ?_⟩, asset_ge_of_le ⟨i2.trans hs2, ?_⟩⟩
      · rw [i3 (i1.trans hs1)]; exact b1
      · rw [i4 (i2.trans hs2)]; exact b2
    obtain ⟨t, ht⟩ := Option.isSome_iff_exists.1 ht
    obtain ⟨a, ha⟩ := Option.isSome_iff_exists.1 ha
    refine ⟨{ (db.adjust_balance f spent.1.neg).adjust_balance f spent.2.neg with
      escrows := db.escrows ++ [transfer_record o] }, ?_⟩
    rw [transfer_eq, hf, ht, ha]
    simp only [hs]
    rw [if_pos hc]
    unfold database.create
    have hx : ((db.adjust_balance f spent.1.neg).adjust_balance f spent.2.neg).find_escrow
        (transfer_record o).from_ (transfer_record o).escrow_id = none := hnone
    rw [hx]
    rfl

/-- Witness of C13: the Create of the scenario meets the preconditions and completes; a
deadline equal to the current time does not. -/
theorem create_succeeds_iff_witness :
    (∃ db1, escrow_transfer_evaluator.do_apply scenario_genesis scenario_create = .ok db1) ∧
    ¬ (∃ db1, escrow_transfer_evaluator.do_apply scenario_genesis
      { scenario_create with ratification_deadline := 100 } = .ok db1) :=
  ⟨(create_succeeds_iff scenario_genesis scenario_create (by decide) (by decide)
      (by decide)).2 ⟨⟨"alice", 200, 50⟩, by decide, by decide, by decide, by decide,
        by decide, by decide, by decide⟩,
    fun h => absurd
      ((create_succeeds_iff scenario_genesis
        { scenario_create with ratification_deadline := 100 } (by decide) (by decide)
        (by decide)).1 h).choose_spec.2.2.2.1 (by decide)⟩

end steemit.chain

namespace steemit.chain

open asset_symbol_type

/-! ## C14: a party acts at most once -/

theorem apply_with_undo_of_error {db d : database} {op : operation}
    (h : apply_operation db op = .error d) : db.apply_with_undo op = db := by
  unfold database.apply_with_undo
  rw [h]

theorem approve_db1_accounts (db : database) (o : escrow_approve_operation) (e : escrow_object) :
    (approve_db1 db o e).accounts = db.accounts := by
  unfold approve_db1
  split <;> rfl

/-- C14.  A party acts at most once.  On a stored record with `to_approved` true every
Approve by the record's `to`, approving or rejecting, throws with the database untouched.  On
a stored record with `agent_approved` true every Approve by the record's `agent`, approving
or rejecting, throws, with no account touched, and the operation leaves the database as it
was; the evaluator itself throws with the database untouched unless the record's `to` and
`agent` are one account that approves with `to_approved` still false, where it has set
`to_approved` before the check that throws and the state is restored by the caller. -/
theorem party_acts_at_most_once (db : database) (o : escrow_approve_operation)
    (e : escrow_object) (he : db.find_escrow o.from_ o.escrow_id = some e) :
    (o.who = e.to_ → e.to_approved = true →
      escrow_approve_evaluator.do_apply db o = .error db) ∧
    (o.who = e.agent → e.agent_approved = true →
      (∃ d, escrow_approve_evaluator.do_apply db o = .error d ∧ d.accounts = db.accounts) ∧
      db.apply_with_undo (.escrow_approve o) = db ∧
      (¬ (o.approve = true ∧ e.to_ = e.agent ∧ e.to_approved = false) →
        escrow_approve_evaluator.do_apply db o = .error db)) := by
  constructor
  · intro hw ha
    cases hr : o.approve
    · rw [approve_reject_eq db o hr, he]
      refine if_neg (fun hc => ?_)
      have := hc.2.1 (hw.trans hc.1.1)
      rw [ha] at this; cases this
    · rw [approve_accept_eq db o hr, he]
      refine if_neg (fun hc => ?_)
      have := hc.2 (hw.trans hc.1.1)
      rw [ha] at this; cases this
  · intro hw ha
    have key : (∃ d, escrow_approve_evaluator.do_apply db o = .error d ∧
        d.accounts = db.accounts) ∧
        (¬ (o.approve = true ∧ e.to_ = e.agent ∧ e.to_approved = false) →
          escrow_approve_evaluator.do_apply db o = .error db) := by
      cases hr : o.approve
      · have : escrow_approve_evaluator.do_apply db o = .error db := by
          rw [approve_reject_eq db o hr, he]
          refine if_neg (fun hc => ?_)
          have := hc.2.2 (hw.trans hc.1.2.1)
          rw [ha] at this; cases this
        exact ⟨⟨db, this, rfl⟩, fun _ => this⟩
      · rw [approve_accept_eq db o hr, he]
        simp only
        by_cases hc : approve_checks db o e ∧ (o.who = o.to_ → e.to_approved = false)
        · have hn : ¬ (o.who = o.agent → e.agent_approved = false) := fun hx => by
            have := hx (hw.trans hc.1.2.1)
            rw [ha] at this; cases this
          rw [if_pos hc, if_neg hn]
          refine ⟨⟨_, rfl, approve_db1_accounts db o e⟩, fun hcorner => ?_⟩
          have hwt : ¬ o.who = o.to_ := fun hx =>
            hcorner ⟨trivial, (hc.1.1.trans hx.symm).trans hw, hc.2 hx⟩
          have : approve_db1 db o e = db := if_neg hwt
          rw [this]
        · rw [if_neg hc]
          exact ⟨⟨db, rfl, rfl⟩, fun _ => rfl⟩
    obtain ⟨⟨d, hd, hacc⟩, hrest⟩ := key
    exact ⟨⟨d, hd, hacc⟩,
      @apply_with_undo_of_error db d (.escrow_approve o) hd, hrest⟩

/-- Witness of C14: bob, who has approved, can neither approve nor reject again. -/
theorem party_acts_at_most_once_witness :
    escrow_approve_evaluator.do_apply scenario_half_ratified (scenario_approve "bob" true) =
      .error scenario_half_ratified ∧
    escrow_approve_evaluator.do_apply scenario_half_ratified (scenario_approve "bob" false) =
      .error scenario_half_ratified :=
  ⟨(party_acts_at_most_once scenario_half_ratified (scenario_approve "bob" true)
      { scenario_record with to_approved := true } (by decide)).1 (by decide) (by decide),
    (party_acts_at_most_once scenario_half_ratified (scenario_approve "bob" false)
      { scenario_record with to_approved := true } (by decide)).1 (by decide) (by decide)⟩

end steemit.chain

namespace steemit.chain

open asset_symbol_type

/-! ## C15 and C16: Dispute -/

theorem find_escrow_congr {db db1 : database} (h : db1.escrows = db.escrows)
    (n : account_name_type) (i : Nat) : db1.find_escrow n i = db.find_escrow n i := by
  unfold database.find_escrow
  rw [h]

theorem find_escrow_modify_other (db : database) (e : escrow_object)
    (f : escrow_object → escrow_object)
    (hf : ∀ x, (f x).from_ = x.from_ ∧ (f x).escrow_id = x.escrow_id)
    (n : account_name_type) (i : Nat) (h : ¬ (e.from_ = n ∧ e.escrow_id = i)) :
    (db.modify e f).find_escrow n i = db.find_escrow n i := by
  unfold database.find_escrow database.modify
  exact find_modify_first_other _ _ _ (fun x => by simp only [(hf x).1, (hf x).2])
    (key_other h) _

/-- C15.  Dispute completes exactly under its preconditions: a Dispute completes if and only
if the `from` account exists, a record is stored under `(from, escrow_id)`, the current time
is strictly before its expiration, both approval flags are true, it is not disputed, and the
operation's `to` and `agent` are the record's.  After a Dispute that completed, every
Dispute on the same record throws, whatever the time and the balances by then. -/
theorem dispute_succeeds_iff (db : database) (o : escrow_dispute_operation) :
    ((∃ db1, escrow_dispute_evaluator.do_apply db o = .ok db1) ↔
      ∃ f e, db.find_account o.from_ = some f ∧
        db.find_escrow o.from_ o.escrow_id = some e ∧
        db.head_block_time < e.escrow_expiration ∧
        e.to_approved = true ∧ e.agent_approved = true ∧ e.disputed = false ∧
        o.to_ = e.to_ ∧ o.agent = e.agent) ∧
    (∀ db1, escrow_dispute_evaluator.do_apply db o = .ok db1 →
      ∀ db2 o2, db2.escrows = db1.escrows → o2.from_ = o.from_ → o2.escrow_id = o.escrow_id →
        escrow_dispute_evaluator.do_apply db2 o2 = .error db2) := by
  constructor
  · constructor
    · rintro ⟨db1, h⟩
      obtain ⟨f, e, hf, he, hc, -⟩ := dispute_ok_inv h
      exact ⟨f, e, hf, he, hc.1, hc.2.1.1, hc.2.1.2, hc.2.2.1, hc.2.2.2.1.symm,
        hc.2.2.2.2.symm⟩
    · rintro ⟨f, e, hf, he, h1, h2, h3, h4, h5, h6⟩
      refine ⟨db.modify e (fun esc => { esc with disputed := true }), ?_⟩
      rw [dispute_eq, hf, he]
      exact if_pos ⟨h1, ⟨h2, h3⟩, h4, h5.symm, h6.symm⟩
  · intro db1 h db2 o2 hesc hn hi
    obtain ⟨f, e, -, he, -, rfl⟩ := dispute_ok_inv h
    obtain ⟨k1, k2⟩ := find_escrow_key he
    have hfind : db2.find_escrow o2.from_ o2.escrow_id = some { e with disputed := true } := by
      rw [find_escrow_congr hesc, hn, hi, ← k1, ← k2,
        find_escrow_modify_same db e (fun esc => { esc with disputed := true })
          (fun x => ⟨rfl, rfl⟩), self_key he]
      rfl
    rw [dispute_eq, hfind]
    cases db2.find_account o2.from_
    · rfl
    · exact if_neg (fun hc => by have := hc.2.2.1; cases this)

/-- C16.  A Dispute that completes changes only the `disputed` flag of its record: the stored
record is the one from before with `disputed` true and every other field as it was, the
accounts and the clock are as they were, and what is stored under every other key is
unchanged. -/
theorem dispute_changes_only_flag (db db1 : database) (o : escrow_dispute_operation)
    (e : escrow_object) (he : db.find_escrow o.from_ o.escrow_id = some e)
    (h : escrow_dispute_evaluator.do_apply db o = .ok db1) :
    db1.find_escrow o.from_ o.escrow_id = some { e with disputed := true } ∧
    db1.accounts = db.accounts ∧ db1.head_block_time = db.head_block_time ∧
    db1.escrows.length = db.escrows.length ∧
    (∀ n i, ¬ (n = o.from_ ∧ i = o.escrow_id) → db1.find_escrow n i = db.find_escrow n i) := by
  obtain ⟨f, e0, -, he0, -, rfl⟩ := dispute_ok_inv h
  have : e0 = e := Option.some.inj (he0.symm.trans he)
  subst this
  obtain ⟨k1, k2⟩ := find_escrow_key he
  refine ⟨?_, rfl, rfl, ?_, fun n i hn => ?_⟩
  · rw [← k1, ← k2, find_escrow_modify_same db e0 (fun esc => { esc with disputed := true })
      (fun x => ⟨rfl, rfl⟩), self_key he]
    rfl
  · unfold database.modify
    simp only
    generalize db.escrows = l
    induction l with
    | nil => rfl
    | cons x xs ih =>
      unfold modify_first
      split
      · rfl
      · simp only [List.length_cons, ih]
  · refine find_escrow_modify_other db e0 (fun esc => { esc with disputed := true })
      (fun x => ⟨rfl, rfl⟩) n i (fun hc => hn ?_)
    exact ⟨hc.1.symm.trans k1, hc.2.symm.trans k2⟩

/-- Witness of C16 (scenario D): the Dispute on the ratified escrow sets the flag and nothing
else. -/
theorem dispute_changes_only_flag_witness :
    escrow_dispute_evaluator.do_apply scenario_ratified
      { from_ := "alice", to_ := "bob", agent := "carol", who := "alice", escrow_id := 1 } =
      .ok scenario_disputed ∧
    scenario_disputed.find_escrow "alice" 1 =
      some { scenario_ratified_record with disputed := true } ∧
    scenario_disputed.accounts = scenario_ratified.accounts :=
  have w := dispute_changes_only_flag scenario_ratified scenario_disputed
    { from_ := "alice", to_ := "bob", agent := "carol", who := "alice", escrow_id := 1 }
    scenario_ratified_record (by decide) (by decide)
  ⟨by decide, w.1, w.2.1⟩

end steemit.chain

namespace steemit.chain

open asset_symbol_type

/-! ## C17: failure atomicity -/

theorem dispute_error_inv {db d : database} {o : escrow_dispute_operation}
    (h : escrow_dispute_evaluator.do_apply db o = .error d) : d = db := by
  rw [dispute_eq] at h
  split at h
  · split at h
    · cases h
    · exact (Except.error.inj h).symm
  · exact (Except.error.inj h).symm

theorem approve_reject_error_inv {db d : database} {o : escrow_approve_operation}
    (hr : o.approve = false) (h : escrow_approve_evaluator.do_apply db o = .error d) :
    d = db := by
  rw [approve_reject_eq db o hr] at h
  split at h
  · split at h
    · split at h
      · cases h
      · exact (Except.error.inj h).symm
    · exact (Except.error.inj h).symm
  · exact (Except.error.inj h).symm

theorem transfer_error_inv {db d : database} {o : escrow_transfer_operation}
    (h : escrow_transfer_evaluator.do_apply db o = .error d) :
    d = db ∨ ((db.find_escrow o.from_ o.escrow_id).isSome = true ∧
      d.escrows = db.escrows ∧ d.head_block_time = db.head_block_time) := by
  rw [transfer_eq] at h
  split at h
  · split at h
    · split at h
      · rename_i f _ _ _ _ _ spent _ _
        unfold database.create at h
        split at h
        · rename_i hsome
          right
          have hd := (Except.error.inj h).symm
          subst hd
          exact ⟨hsome, rfl, rfl⟩
        · cases h
      · exact Or.inl (Except.error.inj h).symm
    · exact Or.inl (Except.error.inj h).symm
  · exact Or.inl (Except.error.inj h).symm

theorem approve_accept_error_inv {db d : database} {o : escrow_approve_operation}
    (hr : o.approve = true) (h : escrow_approve_evaluator.do_apply db o = .error d) :
    d = db ∨ ∃ e, db.find_escrow o.from_ o.escrow_id = some e ∧ d.accounts = db.accounts ∧
      ((o.who = o.to_ ∧ o.who = o.agent ∧ e.to_approved = false ∧ e.agent_approved = true ∧
          d = db.modify e (fun esc => { esc with to_approved := true })) ∨
        (db.find_account o.agent = none ∧ d = approve_db2 db o e)) := by
  rw [approve_accept_eq db o hr] at h
  cases he : db.find_escrow o.from_ o.escrow_id with
  | none =>
    rw [he] at h
    exact Or.inl (Except.error.inj h).symm
  | some e =>
    rw [he] at h
    simp only at h
    split at h
    · rename_i hc
      split at h
      · split at h
        · cases hf : (approve_db2 db o e).find_account o.agent with
          | some a => rw [hf] at h; cases h
          | none =>
            rw [hf] at h
            have hd := (Except.error.inj h).symm
            have hacc := (approve_db2_accounts db o e).1
            refine Or.inr ⟨e, rfl, hd ▸ hacc, Or.inr ⟨?_, hd⟩⟩
            unfold database.find_account at hf ⊢
            rw [← hacc]; exact hf
        · cases h
      · rename_i hn
        have hd := (Except.error.inj h).symm
        by_cases hwt : o.who = o.to_
        · have hwa : o.who = o.agent := by
            by_contra hx
            exact hn (fun hy => absurd hy hx)
          have haa : e.agent_approved = true := by
            cases hx : e.agent_approved
            · exact absurd (fun _ => hx) hn
            · rfl
          have d1 : approve_db1 db o e = db.modify e (fun esc => { esc with to_approved := true }) :=
            if_pos hwt
          rw [d1] at hd
          exact Or.inr ⟨e, rfl, hd ▸ rfl, Or.inl ⟨hwt, hwa, hc.2 hwt, haa, hd⟩⟩
        · have d1 : approve_db1 db o e = db := if_neg hwt
          rw [d1] at hd
          exact Or.inl hd
    · exact Or.inl (Except.error.inj h).symm

/-- C17.  Failure atomicity.  An operation whose evaluator throws leaves the database as it
was before the operation: the caller drops what the evaluator had done.  The evaluator
itself has made no mutation when it throws, save in three places: a Create under a key that
is already stored throws after the debits; an approving Approve in which one account is `to`
and `agent`, with `agent_approved` set and `to_approved` not, throws after setting
`to_approved`; an approving Approve that completes the ratification throws after setting the
flags when the agent account does not exist.  No account is touched by an Approve that
throws. -/
theorem failure_atomicity (db d : database) (op : operation)
    (h : apply_operation db op = .error d) :
    db.apply_with_undo op = db ∧
    (d = db ∨
      (∃ o, op = .escrow_transfer o ∧ (db.find_escrow o.from_ o.escrow_id).isSome = true ∧
        d.escrows = db.escrows ∧ d.head_block_time = db.head_block_time) ∨
      (∃ o e, op = .escrow_approve o ∧ o.approve = true ∧
        db.find_escrow o.from_ o.escrow_id = some e ∧ d.accounts = db.accounts ∧
        ((o.who = o.to_ ∧ o.who = o.agent ∧ e.to_approved = false ∧ e.agent_approved = true ∧
            d = db.modify e (fun esc => { esc with to_approved := true })) ∨
          (db.find_account o.agent = none ∧ d = approve_db2 db o e)))) := by
  refine ⟨apply_with_undo_of_error h, ?_⟩
  cases op with
  | escrow_transfer o =>
    rcases transfer_error_inv (show escrow_transfer_evaluator.do_apply db o = .error d from h)
      with hd | hd
    · exact Or.inl hd
    · exact Or.inr (Or.inl ⟨o, rfl, hd⟩)
  | escrow_approve o =>
    have h : escrow_approve_evaluator.do_apply db o = .error d := h
    cases hr : o.approve
    · exact Or.inl (approve_reject_error_inv hr h)
    · rcases approve_accept_error_inv hr h with hd | ⟨e, he, hacc, hcase⟩
      · exact Or.inl hd
      · exact Or.inr (Or.inr ⟨o, e, rfl, hr, he, hacc, hcase⟩)
  | escrow_dispute o =>
    exact Or.inl (dispute_error_inv (show escrow_dispute_evaluator.do_apply db o = .error d from h))
  | escrow_release o =>
    exact Or.inl (release_error_inv (show escrow_release_evaluator.do_apply db o = .error d from h))

/-- Witness of C17: bob, `to` and `agent` at once, approves an escrow whose agent flag is set
already; the evaluator throws after it has set `to_approved`, and the operation leaves the
ledger as it was. -/
theorem failure_atomicity_witness :
    apply_operation scenario_same_party (.escrow_approve scenario_approve_both) =
      .error { scenario_created with
        escrows := [{ scenario_record with
          agent := "bob", agent_approved := true, to_approved := true }] } ∧
    scenario_same_party.apply_with_undo (.escrow_approve scenario_approve_both) =
      scenario_same_party :=
  ⟨by decide,
    (failure_atomicity scenario_same_party
      { scenario_created with
        escrows := [{ scenario_record with
          agent := "bob", agent_approved := true, to_approved := true }] }
      (.escrow_approve scenario_approve_both) (by decide)).1⟩

end steemit.chain

namespace steemit.chain

open asset_symbol_type

/-! ## C20: an unratified escrow after its ratification deadline -/

/-- C20.  An unratified escrow is frozen once its ratification deadline has passed: on a
stored record with `to_approved` or `agent_approved` false, at a time strictly after its
ratification deadline, every Approve (approving or rejecting, by anyone), every Dispute and
every Release that names the record throws with the database untouched, so that none of the
three moves the record, its held funds or its fee. -/
theorem unratified_frozen_after_deadline (db : database) (n : account_name_type) (i : Nat)
    (e : escrow_object) (he : db.find_escrow n i = some e)
    (hflag : e.to_approved = false ∨ e.agent_approved = false)
    (hclock : e.ratification_deadline < db.head_block_time) :
    (∀ o : escrow_approve_operation, o.from_ = n → o.escrow_id = i →
      escrow_approve_evaluator.do_apply db o = .error db) ∧
    (∀ o : escrow_dispute_operation, o.from_ = n → o.escrow_id = i →
      escrow_dispute_evaluator.do_apply db o = .error db) ∧
    (∀ o : escrow_release_operation, o.from_ = n → o.escrow_id = i →
      escrow_release_evaluator.do_apply db o = .error db) := by
  have hboth : ¬ (e.to_approved = true ∧ e.agent_approved = true) := by
    rintro ⟨h1, h2⟩
    rcases hflag with h | h
    · rw [h] at h1; cases h1
    · rw [h] at h2; cases h2
  refine ⟨fun o hn hi => ?_, fun o hn hi => ?_, fun o hn hi => ?_⟩
  · have he2 : db.find_escrow o.from_ o.escrow_id = some e := by rw [hn, hi]; exact he
    have hno : ¬ approve_checks db o e := fun hc => absurd hc.2.2 (Nat.not_le.2 hclock)
    cases hr : o.approve
    · rw [approve_reject_eq db o hr, he2]
      exact if_neg (fun hc => hno hc.1)
    · rw [approve_accept_eq db o hr, he2]
      exact if_neg (fun hc => hno hc.1)
  · have he2 : db.find_escrow o.from_ o.escrow_id = some e := by rw [hn, hi]; exact he
    rw [dispute_eq, he2]
    cases db.find_account o.from_
    · rfl
    · exact if_neg (fun hc => hboth hc.2.1)
  · have he2 : db.find_escrow o.from_ o.escrow_id = some e := by rw [hn, hi]; exact he
    exact release_error_of he2 (fun hc => hboth hc.2.2.2.2.2.1)

/-- Witness of C20: past the deadline the half-ratified escrow of the scenario can no longer
be approved by carol. -/
theorem unratified_frozen_after_deadline_witness :
    escrow_approve_evaluator.do_apply { scenario_half_ratified with head_block_time := 111 }
      (scenario_approve "carol" true) =
      .error { scenario_half_ratified with head_block_time := 111 } :=
  (unratified_frozen_after_deadline { scenario_half_ratified with head_block_time := 111 }
    "alice" 1 { scenario_record with to_approved := true } (by decide) (by decide)
    (by decide)).1 (scenario_approve "carol" true) rfl rfl

end steemit.chain

namespace steemit.chain

open asset_symbol_type

/-! ## C18 and C19: the balances of stored records -/

/-- A property `Q` of the two balances of a record that every Create establishes and every
partial Release keeps holds of every stored record after an operation that completes, when it
held of every stored record before. -/
theorem balances_step (Q : Int → Int → Prop) (db db1 : database) (op : operation)
    (hI : ∀ e ∈ db.escrows, Q e.steem_balance.amount e.sbd_balance.amount)
    (hcreate : ∀ o, op = .escrow_transfer o → Q o.steem_amount.amount o.sbd_amount.amount)
    (hrel : ∀ x y a b, Q x y → a ≤ x → b ≤ y → ¬ (x - a = 0 ∧ y - b = 0) → Q (x - a) (y - b))
    (h : apply_operation db op = .ok db1) :
    ∀ e ∈ db1.escrows, Q e.steem_balance.amount e.sbd_balance.amount := by
  cases op with
  | escrow_transfer o =>
    obtain ⟨f, t, a, spent, -, -, -, -, -, -, rfl⟩ := transfer_ok_inv h
    intro y hy
    simp only [List.mem_append, List.mem_singleton] at hy
    rcases hy with hy | rfl
    · exact hI y hy
    · exact hcreate o rfl
  | escrow_approve o =>
    have h : escrow_approve_evaluator.do_apply db o = .ok db1 := h
    cases hr : o.approve
    · obtain ⟨e, f, -, -, -, -, -, rfl⟩ := approve_reject_ok_inv hr h
      intro y hy
      exact hI y (List.mem_of_mem_eraseP hy)
    · obtain ⟨e, he, -, -, -, hcase⟩ := approve_accept_ok_inv hr h
      rcases hcase with ⟨-, -, a, -, rfl⟩ | ⟨-, rfl⟩
      · intro y hy
        rw [approve_paid_escrows] at hy
        rcases mem_modify_first _ _ _ _ hy with hy | ⟨x, hx, rfl⟩
        · exact hI y hy
        · have hq := hI x (List.mem_of_find?_eq_some hx)
          have k := approve_e2_fee o x
          simp only [k.2.1, k.2.2]
          exact hq
      · intro y hy
        rw [approve_db2_escrows] at hy
        rcases mem_modify_first _ _ _ _ hy with hy | ⟨x, hx, rfl⟩
        · exact hI y hy
        · have hq := hI x (List.mem_of_find?_eq_some hx)
          have k := approve_e2_fee o x
          rw [k.2.1, k.2.2]
          exact hq
  | escrow_dispute o =>
    obtain ⟨f, e, -, -, -, rfl⟩ := dispute_ok_inv h
    intro y hy
    rcases mem_modify_first _ _ _ _ hy with hy | ⟨x, hx, rfl⟩
    · exact hI y hy
    · exact hI x (List.mem_of_find?_eq_some hx)
  | escrow_release o =>
    obtain ⟨f, r, e, -, -, he, hc, rfl⟩ := release_ok_inv h
    have g1 := (asset_ge_true hc.1).2
    have g2 := (asset_ge_true hc.2.1).2
    have hq := hI e (mem_of_find_escrow he)
    unfold release_result
    simp only
    split
    · intro y hy
      have hy2 : y ∈ (modify_first (fun x => x.from_ == e.from_ && x.escrow_id == e.escrow_id)
          (fun esc => { esc with
            steem_balance := { e.steem_balance with
              amount := e.steem_balance.amount - o.steem_amount.amount },
            sbd_balance := { e.sbd_balance with
              amount := e.sbd_balance.amount - o.sbd_amount.amount } })
          db.escrows).eraseP (fun x => x.from_ == e.from_ && x.escrow_id == e.escrow_id) := hy
      have hsame := eraseP_modify_first
        (fun x : escrow_object => x.from_ == e.from_ && x.escrow_id == e.escrow_id)
        (fun esc => { esc with
          steem_balance := { e.steem_balance with
            amount := e.steem_balance.amount - o.steem_amount.amount },
          sbd_balance := { e.sbd_balance with
            amount := e.sbd_balance.amount - o.sbd_amount.amount } })
        (fun x => rfl) db.escrows
      rw [hsame] at hy2
      exact hI y (List.mem_of_mem_eraseP hy2)
    · rename_i hz
      intro y hy
      rcases mem_modify_first _ _ _ _ hy with hy | ⟨x, hx, rfl⟩
      · exact hI y hy
      · refine hrel _ _ _ _ hq g1 g2 (fun hzero => hz ?_)
        simp [hzero.1, hzero.2]

theorem scenario_ratified_reachable : reachable scenario_ratified :=
  reachable_by.step scenario_half_ratified scenario_ratified
    (.escrow_approve (scenario_approve "carol" true))
    (reachable_by.step scenario_created scenario_half_ratified
      (.escrow_approve (scenario_approve "bob" true))
      (reachable_by.step scenario_genesis scenario_created (.escrow_transfer scenario_create)
        (reachable_by.empty scenario_genesis rfl) trivial (by decide))
      trivial (by decide))
    trivial (by decide)

/-- C18, as stated, fails.  A Create of -5 completes on the ledger with an empty escrow store
and leaves a stored record with a negative balance; and a Release of -10 completes on the
ratified escrow and leaves its balance at 110, above the 100 from before. -/
theorem negative_amounts_counterexample :
    (reachable scenario_overdrawn ∧
      ∃ e ∈ scenario_overdrawn.escrows, e.steem_balance.amount < 0) ∧
    (reachable scenario_ratified ∧
      escrow_release_evaluator.do_apply scenario_ratified scenario_release_negative =
        .ok scenario_inflated ∧
      ∃ e e1, scenario_ratified.find_escrow "alice" 1 = some e ∧
        scenario_inflated.find_escrow "alice" 1 = some e1 ∧
        e.steem_balance.amount < e1.steem_balance.amount) :=
  ⟨⟨reachable_by.step scenario_genesis scenario_overdrawn
      (.escrow_transfer scenario_create_negative) (reachable_by.empty scenario_genesis rfl)
      trivial (by decide), by decide⟩,
    scenario_ratified_reachable, by decide, scenario_ratified_record,
    { scenario_ratified_record with steem_balance := steem 110 }, by decide, by decide,
    by decide⟩

/-! ### One record per key in every reached state -/

theorem pairwise_modify_first {α : Type} (R : α → α → Prop) (p : α → Bool) (f : α → α)
    (h1 : ∀ x y, R x y → R (f x) y) (h2 : ∀ x y, R x y → R x (f y)) (l : List α)
    (hl : l.Pairwise R) : (modify_first p f l).Pairwise R := by
  induction l with
  | nil => exact hl
  | cons x xs ih =>
    rw [List.pairwise_cons] at hl
    unfold modify_first
    split
    · rw [List.pairwise_cons]
      exact ⟨fun y hy => h1 x y (hl.1 y hy), hl.2⟩
    · rw [List.pairwise_cons]
      refine ⟨fun y hy => ?_, ih hl.2⟩
      rcases mem_modify_first _ _ _ _ hy with hy | ⟨z, hz, rfl⟩
      · exact hl.1 y hy
      · exact h2 x z (hl.1 z (List.mem_of_find?_eq_some hz))

theorem unique_modify_first (p : escrow_object → Bool) (f : escrow_object → escrow_object)
    (hf : ∀ x, (f x).from_ = x.from_ ∧ (f x).escrow_id = x.escrow_id) (l : List escrow_object)
    (hl : l.Pairwise (fun a b => ¬ (a.from_ = b.from_ ∧ a.escrow_id = b.escrow_id))) :
    (modify_first p f l).Pairwise
      (fun a b => ¬ (a.from_ = b.from_ ∧ a.escrow_id = b.escrow_id)) := by
  refine pairwise_modify_first _ p f (fun x y h => ?_) (fun x y h => ?_) l hl
  · rw [(hf x).1, (hf x).2]; exact h
  · rw [(hf y).1, (hf y).2]; exact h

/-- Every operation that completes keeps one record per key. -/
theorem unique_keys_step {db db1 : database} {op : operation} (hu : db.unique_keys)
    (h : apply_operation db op = .ok db1) : db1.unique_keys := by
  unfold database.unique_keys at hu ⊢
  cases op with
  | escrow_transfer o =>
    obtain ⟨f, t, a, spent, -, -, -, -, -, hnone, rfl⟩ := transfer_ok_inv h
    show (db.escrows ++ [transfer_record o]).Pairwise _
    rw [List.pairwise_append]
    refine ⟨hu, List.pairwise_singleton _ _, fun x hx y hy => ?_⟩
    rw [List.mem_singleton] at hy
    subst hy
    have hn : db.escrows.find? (fun x => x.from_ == o.from_ && x.escrow_id == o.escrow_id) =
        none := hnone
    rw [List.find?_eq_none] at hn
    intro hc
    exact hn x hx (by simpa [transfer_record] using hc)
  | escrow_approve o =>
    have h : escrow_approve_evaluator.do_apply db o = .ok db1 := h
    cases hr : o.approve
    · obtain ⟨e, f, -, -, -, -, -, rfl⟩ := approve_reject_ok_inv hr h
      exact List.Pairwise.sublist (List.eraseP_sublist _) hu
    · obtain ⟨e, -, -, -, -, hcase⟩ := approve_accept_ok_inv hr h
      rcases hcase with ⟨-, -, a, -, rfl⟩ | ⟨-, rfl⟩
      · rw [approve_paid_escrows]
        refine unique_modify_first _ _ ?_ _ hu
        exact fun x => approve_e2_key o x
      · rw [approve_db2_escrows]
        exact unique_modify_first _ _ (fun x => approve_e2_key o x) _ hu
  | escrow_dispute o =>
    obtain ⟨f, e, -, -, -, rfl⟩ := dispute_ok_inv h
    exact unique_modify_first _ (fun esc => { esc with disputed := true })
      (fun x => ⟨rfl, rfl⟩) _ hu
  | escrow_release o =>
    obtain ⟨f, r, e, -, -, -, -, rfl⟩ := release_ok_inv h
    have hmod := unique_modify_first
      (fun x => x.from_ == e.from_ && x.escrow_id == e.escrow_id)
      (fun esc => { esc with
        steem_balance := { e.steem_balance with
          amount := e.steem_balance.amount - o.steem_amount.amount },
        sbd_balance := { e.sbd_balance with
          amount := e.sbd_balance.amount - o.sbd_amount.amount } })
      (fun x => ⟨rfl, rfl⟩) db.escrows hu
    unfold release_result
    simp only
    split
    · exact List.Pairwise.sublist (List.eraseP_sublist _) hmod
    · exact hmod

/-- Every state reached from an empty escrow store holds one record per key. -/
theorem reachable_unique_keys {P : operation → Prop} (db : database)
    (hr : reachable_by P db) : db.unique_keys :=
  reachable_by_invariant
    (fun l => l.Pairwise
      (fun (a b : escrow_object) => ¬ (a.from_ = b.from_ ∧ a.escrow_id = b.escrow_id)))
    List.Pairwise.nil (fun d d1 _ hI _ h => @unique_keys_step d d1 _ hI h) db hr

/-- The record a Release leaves in the store when it does not settle it. -/
theorem release_record_kept {db db1 : database} {o : escrow_release_operation}
    {e : escrow_object} (he : db.find_escrow o.from_ o.escrow_id = some e)
    (h : escrow_release_evaluator.do_apply db o = .ok db1)
    (hz : ¬ (e.steem_balance.amount - o.steem_amount.amount = 0 ∧
      e.sbd_balance.amount - o.sbd_amount.amount = 0)) :
    db1.find_escrow o.from_ o.escrow_id =
      some { e with
        steem_balance :=
          { e.steem_balance with amount := e.steem_balance.amount - o.steem_amount.amount },
        sbd_balance :=
          { e.sbd_balance with amount := e.sbd_balance.amount - o.sbd_amount.amount } } := by
  obtain ⟨f, r, e0, -, -, he0, -, rfl⟩ := release_ok_inv h
  have : e0 = e := Option.some.inj (he0.symm.trans he)
  subst this
  obtain ⟨k1, k2⟩ := find_escrow_key he
  have hmod := find_escrow_modify_same
    ((db.adjust_balance r o.steem_amount).adjust_balance r o.sbd_amount) e0
    (fun esc => { esc with
      steem_balance :=
        { e0.steem_balance with amount := e0.steem_balance.amount - o.steem_amount.amount },
      sbd_balance :=
        { e0.sbd_balance with amount := e0.sbd_balance.amount - o.sbd_amount.amount } })
    (fun x => ⟨rfl, rfl⟩)
  have hek : ((db.adjust_balance r o.steem_amount).adjust_balance r o.sbd_amount).find_escrow
      e0.from_ e0.escrow_id = some e0 := self_key he
  rw [hek, k1, k2] at hmod
  have hz2 : ¬ ((e0.steem_balance.amount - o.steem_amount.amount == 0 &&
      e0.sbd_balance.amount - o.sbd_amount.amount == 0) = true) := by
    intro hc
    simp only [Bool.and_eq_true, beq_iff_eq] at hc
    exact hz hc
  unfold release_result
  simp only
  rw [if_neg hz2]
  exact hmod

/-- The store a Release leaves when it settles the record: the record is erased, and with one
record per key nothing is found under its key. -/
theorem release_record_removed {db db1 : database} {o : escrow_release_operation}
    {e : escrow_object} (he : db.find_escrow o.from_ o.escrow_id = some e)
    (h : escrow_release_evaluator.do_apply db o = .ok db1)
    (hz : e.steem_balance.amount - o.steem_amount.amount = 0 ∧
      e.sbd_balance.amount - o.sbd_amount.amount = 0) :
    db1.escrows = db.escrows.erase e ∧
    (db.unique_keys → db1.find_escrow o.from_ o.escrow_id = none) := by
  obtain ⟨f, r, e0, -, -, he0, -, rfl⟩ := release_ok_inv h
  have : e0 = e := Option.some.inj (he0.symm.trans he)
  subst this
  obtain ⟨k1, k2⟩ := find_escrow_key he
  have hz2 : (e0.steem_balance.amount - o.steem_amount.amount == 0 &&
      e0.sbd_balance.amount - o.sbd_amount.amount == 0) = true := by
    simp [hz.1, hz.2]
  have hres : (release_result db o r e0).escrows =
      db.escrows.eraseP (fun x => x.from_ == e0.from_ && x.escrow_id == e0.escrow_id) := by
    unfold release_result
    simp only
    rw [if_pos hz2]
    refine eraseP_modify_first _ _ ?_ _
    exact fun x => rfl
  refine ⟨hres.trans (eraseP_eq_erase _ _ _ (self_key he)), fun hu => ?_⟩
  have := find_escrow_remove_same db e0 hu
  rw [k1, k2] at this
  unfold database.find_escrow at this ⊢
  rw [hres]
  exact this

/-- C18, amended.  In every state reached from an empty escrow store by operations that
complete and whose Creates put no negative amount in escrow, every stored record has both
balances at zero or above.  A Release that completes there leaves every stored record so.
When it does not settle the record, the record it leaves under the key has each balance
lower by the amount requested of it, at zero or above, and, when that amount is not
negative, no larger than before.  When it settles the record, bringing both balances to
zero, nothing is left under the key, and the balances it took to zero were at zero or
above. -/
theorem held_balances_nonneg (db : database) (hr : reachable_by operation.escrows_nonneg db) :
    (∀ e ∈ db.escrows, 0 ≤ e.steem_balance.amount ∧ 0 ≤ e.sbd_balance.amount) ∧
    (∀ o e db1, db.find_escrow o.from_ o.escrow_id = some e →
      escrow_release_evaluator.do_apply db o = .ok db1 →
      (∀ e1 ∈ db1.escrows, 0 ≤ e1.steem_balance.amount ∧ 0 ≤ e1.sbd_balance.amount) ∧
      (¬ (e.steem_balance.amount - o.steem_amount.amount = 0 ∧
          e.sbd_balance.amount - o.sbd_amount.amount = 0) →
        ∃ e1, db1.find_escrow o.from_ o.escrow_id = some e1 ∧
          e1.steem_balance.amount = e.steem_balance.amount - o.steem_amount.amount ∧
          e1.sbd_balance.amount = e.sbd_balance.amount - o.sbd_amount.amount ∧
          0 ≤ e1.steem_balance.amount ∧ 0 ≤ e1.sbd_balance.amount ∧
          (0 ≤ o.steem_amount.amount → e1.steem_balance.amount ≤ e.steem_balance.amount) ∧
          (0 ≤ o.sbd_amount.amount → e1.sbd_balance.amount ≤ e.sbd_balance.amount)) ∧
      (e.steem_balance.amount - o.steem_amount.amount = 0 ∧
          e.sbd_balance.amount - o.sbd_amount.amount = 0 →
        db1.find_escrow o.from_ o.escrow_id = none ∧ db1.escrows = db.escrows.erase e ∧
        0 ≤ e.steem_balance.amount ∧ 0 ≤ e.sbd_balance.amount)) := by
  have hrel : ∀ x y a b : Int, 0 ≤ x ∧ 0 ≤ y → a ≤ x → b ≤ y → ¬ (x - a = 0 ∧ y - b = 0) →
      0 ≤ x - a ∧ 0 ≤ y - b := fun x y a b _ h1 h2 _ => ⟨by linarith, by linarith⟩
  have hinv : ∀ e ∈ db.escrows, 0 ≤ e.steem_balance.amount ∧ 0 ≤ e.sbd_balance.amount :=
    reachable_by_invariant
      (fun l => ∀ e ∈ l, 0 ≤ e.steem_balance.amount ∧ 0 ≤ e.sbd_balance.amount)
      (fun e he => by cases he)
      (fun d d1 op hI hp h => balances_step (fun x y => 0 ≤ x ∧ 0 ≤ y) d d1 op hI
        (fun o ho => by subst ho; exact hp) hrel h) db hr
  refine ⟨hinv, fun o e db1 he hok => ?_⟩
  obtain ⟨f, r, e0, -, -, he0, hc, -⟩ := release_ok_inv hok
  have : e0 = e := Option.some.inj (he0.symm.trans he)
  subst this
  have g1 := (asset_ge_true hc.1).2
  have g2 := (asset_ge_true hc.2.1).2
  have hq := hinv e0 (mem_of_find_escrow he)
  refine ⟨?_, fun hz => ?_, fun hz => ?_⟩
  · exact balances_step (fun x y => 0 ≤ x ∧ 0 ≤ y) db db1 (.escrow_release o) hinv
      (fun o2 ho => by cases ho) hrel hok
  · refine ⟨_, release_record_kept he hok hz, rfl, rfl, ?_, ?_, fun h => ?_, fun h => ?_⟩
    · show 0 ≤ e0.steem_balance.amount - o.steem_amount.amount
      linarith
    · show 0 ≤ e0.sbd_balance.amount - o.sbd_amount.amount
      linarith
    · show e0.steem_balance.amount - o.steem_amount.amount ≤ e0.steem_balance.amount
      linarith
    · show e0.sbd_balance.amount - o.sbd_amount.amount ≤ e0.sbd_balance.amount
      linarith
  · obtain ⟨hers, hnone⟩ := release_record_removed he hok hz
    exact ⟨hnone (reachable_unique_keys db hr), hers, hq.1, hq.2⟩

/-- Witness of C18 amended: on the ratified escrow of the scenario, reached by a Create of
100 and 0, alice releases 40 to bob; the record stays with 60, between zero and the 100 from
before. -/
theorem held_balances_nonneg_witness :
    escrow_release_evaluator.do_apply scenario_ratified scenario_release_part =
      .ok scenario_part_released ∧
    ∃ e1, scenario_part_released.find_escrow scenario_release_part.from_
        scenario_release_part.escrow_id = some e1 ∧
      e1.steem_balance.amount = scenario_ratified_record.steem_balance.amount -
        scenario_release_part.steem_amount.amount ∧
      e1.sbd_balance.amount = scenario_ratified_record.sbd_balance.amount -
        scenario_release_part.sbd_amount.amount ∧
      0 ≤ e1.steem_balance.amount ∧ 0 ≤ e1.sbd_balance.amount ∧
      (0 ≤ scenario_release_part.steem_amount.amount →
        e1.steem_balance.amount ≤ scenario_ratified_record.steem_balance.amount) ∧
      (0 ≤ scenario_release_part.sbd_amount.amount →
        e1.sbd_balance.amount ≤ scenario_ratified_record.sbd_balance.amount) :=
  ⟨by decide,
    ((held_balances_nonneg scenario_ratified
      (reachable_by.step scenario_half_ratified scenario_ratified
        (.escrow_approve (scenario_approve "carol" true))
        (reachable_by.step scenario_created scenario_half_ratified
          (.escrow_approve (scenario_approve "bob" true))
          (reachable_by.step scenario_genesis scenario_created
            (.escrow_transfer scenario_create)
            (reachable_by.empty scenario_genesis rfl) ⟨by decide, by decide⟩ (by decide))
          trivial (by decide))
        trivial (by decide))).2 scenario_release_part scenario_ratified_record
      scenario_part_released (by decide) (by decide)).2.1 (by decide)⟩

/-- C19, as stated, fails.  A Create that puts nothing in escrow completes on the ledger with
an empty escrow store and leaves a stored record with both balances zero. -/
theorem hollow_escrow_counterexample :
    reachable scenario_hollow ∧
    ∃ e ∈ scenario_hollow.escrows, e.steem_balance.amount = 0 ∧ e.sbd_balance.amount = 0 :=
  ⟨reachable_by.step scenario_genesis scenario_hollow
      (.escrow_transfer scenario_create_nothing) (reachable_by.empty scenario_genesis rfl)
      trivial (by decide), by decide⟩

/-- C19, amended.  In every state reached from an empty escrow store by operations that
complete and whose Creates put something in escrow, no stored record has both balances at
zero. -/
theorem no_settled_record_stays (db : database)
    (hr : reachable_by operation.escrows_nonzero db) :
    ∀ e ∈ db.escrows, ¬ (e.steem_balance.amount = 0 ∧ e.sbd_balance.amount = 0) :=
  reachable_by_invariant
    (fun l => ∀ e ∈ l, ¬ (e.steem_balance.amount = 0 ∧ e.sbd_balance.amount = 0))
    (fun e he => by cases he)
    (fun d d1 op hI hp h => balances_step (fun x y => ¬ (x = 0 ∧ y = 0)) d d1 op hI
      (fun o ho => by subst ho; exact hp) (fun x y a b _ _ _ hz => hz) h) db hr

/-- Witness of C19 amended: the record of the scenario's escrow, created with 100, is not a
settled one. -/
theorem no_settled_record_stays_witness :
    apply_operation scenario_genesis (.escrow_transfer scenario_create) = .ok scenario_created ∧
    ∀ e ∈ scenario_created.escrows,
      ¬ (e.steem_balance.amount = 0 ∧ e.sbd_balance.amount = 0) :=
  ⟨by decide,
    no_settled_record_stays scenario_created
      (reachable_by.step scenario_genesis scenario_created (.escrow_transfer scenario_create)
        (reachable_by.empty scenario_genesis rfl)
        (show ¬ (scenario_create.steem_amount.amount = 0 ∧
          scenario_create.sbd_amount.amount = 0) by decide)
        (by decide))⟩

end steemit.chain
